import Mathlib

/-!
Verification of the recipe-extraction core of the AI-Recipe-Generator service
(`src/pages/api/generate.ts`).  Strings are modelled as `List Char`; the
request handler, the two-tier extractor (strict JSON first, heuristic
line-scanning fallback) and the normalization step are embedded as
executable functions, and the behavioural claims about them are proved or
refuted below.
-/

namespace RecipeGen

/-- Convert a Lean string literal to the character-list representation used
throughout this development. -/
def chars (s : String) : List Char := s.toList

/-- The backtick character (written via its code point). -/
def btick : Char := Char.ofNat 96

/-- The opening curly brace character. -/
def lbrace : Char := Char.ofNat 123

/-- The closing curly brace character. -/
def rbrace : Char := Char.ofNat 125

/-- JavaScript whitespace (the `\s` class / `String.prototype.trim`):
space, tab, LF, CR, VT, FF, NBSP, BOM. -/
def isWS (c : Char) : Bool :=
  c = ' ' || c = '\t' || c = '\n' || c = '\r' || c.toNat = 11 || c.toNat = 12 ||
  c.toNat = 160 || c.toNat = 65279

/-- JSON whitespace as accepted by `JSON.parse`: space, tab, LF, CR. -/
def isJWS (c : Char) : Bool :=
  c = ' ' || c = '\t' || c = '\n' || c = '\r'

/-- Lower-case a character list (models the effect of a case-insensitive
regex by normalising both sides). -/
def lowerStr (l : List Char) : List Char := l.map Char.toLower

/-- Drop trailing whitespace. -/
def dropTrailWS (l : List Char) : List Char := (l.reverse.dropWhile isWS).reverse

/-- JavaScript `String.prototype.trim`. -/
def trim (l : List Char) : List Char := dropTrailWS (l.dropWhile isWS)

/-- Split on newline characters, JavaScript `split('\n')` semantics
(an empty input gives one empty piece, a trailing newline an empty last piece). -/
def splitNl : List Char → List (List Char)
  | [] => [[]]
  | c :: rest =>
    if c = '\n' then [] :: splitNl rest
    else
      match splitNl rest with
      | h :: t => (c :: h) :: t
      | [] => [[c]]

/-- Join lines with newline separators (inverse of `splitNl` on
newline-free lines). -/
def joinNl : List (List Char) → List Char
  | [] => []
  | [l] => l
  | l :: ls => l ++ '\n' :: joinNl ls

/-- Does `p` occur as a literal prefix of `s`? -/
def startsWithB : List Char → List Char → Bool
  | [], _ => true
  | _ :: _, [] => false
  | p :: ps, c :: cs => p = c && startsWithB ps cs

/-- Does `p` occur as a contiguous substring of `s`? -/
def isInfixB (p s : List Char) : Bool :=
  startsWithB p s ||
    match s with
    | [] => false
    | _ :: rest => isInfixB p rest

/-- Case-insensitive substring test: models `/pat/i.test(s)` for a literal
pattern `pat` (given in lower case). -/
def containsCI (pat s : List Char) : Bool := isInfixB pat (lowerStr s)

/-- Strip a literal pattern from the front of `s`, comparing
case-insensitively; `pat` is given in lower case. -/
def stripCI : List Char → List Char → Option (List Char)
  | [], s => some s
  | _ :: _, [] => none
  | p :: ps, c :: cs => if c.toLower = p then stripCI ps cs else none

/-- Strip an exact literal from the front of `s`. -/
def stripLit : List Char → List Char → Option (List Char)
  | [], s => some s
  | _ :: _, [] => none
  | p :: ps, c :: cs => if c = p then stripLit ps cs else none

/-- A character matched by the class `[-•*\d]` of the bullet prefix regex. -/
def isBChar (c : Char) : Bool := c = '-' || c = '•' || c = '*' || c.isDigit

/-- A character matched by the class `[\s\.)]` terminating a bullet prefix. -/
def isBSep (c : Char) : Bool := isWS c || c = '.' || c = ')'

/-- Matcher for the source regex `^[-•*\d]+[\s\.)]`: a non-empty run of
bullet characters followed by one separator.  Returns the remainder after
the matched prefix, or `none` when the regex does not match.  (The two
character classes are disjoint, so the greedy run needs no backtracking.) -/
def bulletSplit (t : List Char) : Option (List Char) :=
  let run := t.takeWhile isBChar
  let rest := t.dropWhile isBChar
  if run.isEmpty then none
  else
    match rest with
    | c :: r => if isBSep c then some r else none
    | [] => none

/-- Test of the bullet prefix regex. -/
def bulletTest (t : List Char) : Bool := (bulletSplit t).isSome

/-- `trimmedLine.replace(/^[-•*\d]+[\s\.)]/i, '')`. -/
def bulletStrip (t : List Char) : List Char := (bulletSplit t).getD t

/-- Matcher for `^step\s*\d+[:\.)]` (case-insensitive): used by the
instruction scanner's `replace`.  Returns the remainder after the match. -/
def stepSplit (t : List Char) : Option (List Char) :=
  match stripCI (chars "step") t with
  | none => none
  | some r =>
    if ((r.dropWhile isWS).takeWhile Char.isDigit).isEmpty then none
    else
      match (r.dropWhile isWS).dropWhile Char.isDigit with
      | c :: rr => if c = ':' || c = '.' || c = ')' then some rr else none
      | [] => none

/-- Test of `^step\s*\d+` (case-insensitive), the condition of the
instruction scanner. -/
def stepTest (t : List Char) : Bool :=
  match stripCI (chars "step") t with
  | none => false
  | some r => !((r.dropWhile isWS).takeWhile Char.isDigit).isEmpty

/-- `trimmedLine.replace(/^step\s*\d+[:\.)]/i, '')`. -/
def stepStrip (t : List Char) : List Char := (stepSplit t).getD t

/-- `/ingredients/i.test(trimmedLine)`. -/
def ingHdr (t : List Char) : Bool := containsCI (chars "ingredients") t

/-- `/instructions|directions|steps/i.test(trimmedLine)`. -/
def insHdr (t : List Char) : Bool :=
  containsCI (chars "instructions") t || containsCI (chars "directions") t ||
    containsCI (chars "steps") t

/-- After a matched label and colon, the `\s*(.+)` tail of the title regex:
greedy whitespace skip, then a non-empty capture of non-newline characters,
with the backtracking behaviour of the JavaScript engine when everything
after the colon is whitespace. -/
def afterColonCap (r : List Char) : Option (List Char) :=
  let rest := r.dropWhile isWS
  if rest.isEmpty then
    match (r.reverse.dropWhile (fun c => c = '\n')) with
    | [] => none
    | c :: _ => some [c]
  else some (rest.takeWhile (fun c => c ≠ '\n'))

/-- Attempt the title regex `(?:title|dish|recipe):\s*(.+)/i` at the current
position; returns the capture group. -/
def titleAt (s : List Char) : Option (List Char) :=
  let afterLabel :=
    match stripCI (chars "title") s with
    | some r => some r
    | none =>
      match stripCI (chars "dish") s with
      | some r => some r
      | none => stripCI (chars "recipe") s
  match afterLabel with
  | some (c :: r) => if c = ':' then afterColonCap r else none
  | _ => none

/-- First match of the title regex over the whole text: the engine scans
positions left to right. -/
def findTitleMatch : List Char → Option (List Char)
  | [] => none
  | c :: rest =>
    match titleAt (c :: rest) with
    | some cap => some cap
    | none => findTitleMatch rest

/-- The `Recipe` record produced by the fallback extractor (all fields are
strings or string lists, as constructed by `extractRecipeFromText`). -/
structure Recipe where
  title : List Char
  description : List Char
  ingredients : List (List Char)
  instructions : List (List Char)
  prepTime : List Char
  cookTime : List Char
  servings : List Char
  difficulty : List Char
deriving DecidableEq

/-- The ingredient-collecting loop of `extractRecipeFromText`: one pass over
the lines with an in-section flag, bullet stripping and exact-string
deduplication. -/
def ingScan : List (List Char) → Bool → List (List Char) → List (List Char)
  | [], _, acc => acc
  | l :: ls, inSec, acc =>
    if ingHdr (trim l) then ingScan ls true acc
    else if insHdr (trim l) then ingScan ls false acc
    else if inSec || bulletTest (trim l) then
      if trim (bulletStrip (trim l)) ≠ [] ∧ trim (bulletStrip (trim l)) ∉ acc then
        ingScan ls inSec (acc ++ [trim (bulletStrip (trim l))])
      else ingScan ls inSec acc
    else ingScan ls inSec acc

/-- The instruction-collecting loop of `extractRecipeFromText`. -/
def insScan : List (List Char) → Bool → List (List Char) → List (List Char)
  | [], _, acc => acc
  | l :: ls, inSec, acc =>
    if insHdr (trim l) then insScan ls true acc
    else if inSec || stepTest (trim l) then
      if trim (stepStrip (trim l)) ≠ [] ∧ trim (stepStrip (trim l)) ∉ acc then
        insScan ls inSec (acc ++ [trim (stepStrip (trim l))])
      else insScan ls inSec acc
    else insScan ls inSec acc

/-- Tier-2 heuristic extraction, the `extractRecipeFromText` function of the
source: split into non-blank lines, pick a title (label regex, else first
colon-free line, else a placeholder), run the two section scans, insert
placeholder entries when a scan found nothing, and fill the fixed fields. -/
def extractRecipeFromText (text : List Char) : Recipe :=
  let lines := (splitNl text).filter (fun l => !(trim l).isEmpty)
  let title :=
    match findTitleMatch text with
    | some cap => trim cap
    | none =>
      match lines with
      | [] => chars "Delicious Recipe"
      | l0 :: _ => if l0.any (fun c => c = ':') then chars "Delicious Recipe" else trim l0
  let ing0 := ingScan lines false []
  let ins0 := insScan lines false []
  { title := title
    description := chars "Recipe generated from image analysis"
    ingredients := if ing0.isEmpty then [chars "Ingredients not clearly specified in the image"] else ing0
    instructions := if ins0.isEmpty then [chars "Instructions not clearly specified in the image"] else ins0
    prepTime := chars "30 minutes"
    cookTime := chars "30 minutes"
    servings := chars "4 servings"
    difficulty := chars "Medium" }

/-- Runtime JavaScript/JSON values as far as the handler observes them.
`jundef` stands for `undefined` (absent property). -/
inductive JsonVal where
  | jnull
  | jundef
  | jbool (b : Bool)
  | jnum (lex : List Char)
  | jstr (s : List Char)
  | jarr (elems : List JsonVal)
  | jobj (fields : List (List Char × JsonVal))

open JsonVal

instance : Inhabited JsonVal := ⟨JsonVal.jundef⟩

/-- Is a numeric lexeme non-zero?  (The mantissa, before any exponent
marker, contains a non-zero digit.) -/
def numNonzero (lex : List Char) : Bool :=
  (lex.takeWhile (fun c => c ≠ 'e' ∧ c ≠ 'E')).any (fun c => c.isDigit && c ≠ '0')

/-- JavaScript truthiness of a value. -/
def truthy : JsonVal → Bool
  | jnull => false
  | jundef => false
  | jbool b => b
  | jnum lex => numNonzero lex
  | jstr s => !s.isEmpty
  | jarr _ => true
  | jobj _ => true

/-- Property lookup on an object's field list (first occurrence wins, as in
a JavaScript object whose keys are unique). -/
def lookupField : List (List Char × JsonVal) → List Char → JsonVal
  | [], _ => jundef
  | (k', v) :: rest, k => if k' = k then v else lookupField rest k

/-- JavaScript property access `v[k]` for a string key: `undefined` on
non-objects (none of the keys used by the handler collide with built-in
properties). -/
def getField : JsonVal → List Char → JsonVal
  | jobj fs, k => lookupField fs k
  | _, _ => jundef

/-- JavaScript indexed access `v[i]`. -/
def getIdx : JsonVal → Nat → JsonVal
  | jarr xs, i => match xs[i]? with | some v => v | none => jundef
  | jstr s, i => match s[i]? with | some ch => jstr [ch] | none => jundef
  | jobj fs, i => lookupField fs (Nat.toDigits 10 i)
  | _, _ => jundef

/-- Is the value an array (`Array.isArray`)? -/
def isArrB : JsonVal → Bool
  | jarr _ => true
  | _ => false

/-- Field-list part of property assignment: replace in place when the key
exists, append otherwise. -/
def setFldF (fs : List (List Char × JsonVal)) (k : List Char) (v : JsonVal) :
    List (List Char × JsonVal) :=
  if fs.any (fun p => p.fst = k) then
    fs.map (fun p => if p.fst = k then (k, v) else p)
  else fs ++ [(k, v)]

/-- Property assignment `obj[k] = v`: replace in place when the key exists,
append otherwise; no effect on non-objects (never reached on one). -/
def setFld : JsonVal → List Char → JsonVal → JsonVal
  | jobj fs, k, v => jobj (setFldF fs k v)
  | j, _, _ => j

/-- Add a parsed member to an object under construction: a duplicate key
overwrites the earlier value in place (`JSON.parse` semantics). -/
def insertField (fs : List (List Char × JsonVal)) (k : List Char) (v : JsonVal) :
    List (List Char × JsonVal) :=
  if fs.any (fun p => p.fst = k) then
    fs.map (fun p => if p.fst = k then (k, v) else p)
  else fs ++ [(k, v)]

/-- Decode one string-escape character; `none` on an invalid escape. -/
def escChar (c : Char) : Option Char :=
  if c = '"' || c = '\\' || c = '/' then some c
  else if c = 'b' then some (Char.ofNat 8)
  else if c = 'f' then some (Char.ofNat 12)
  else if c = 'n' then some '\n'
  else if c = 'r' then some '\r'
  else if c = 't' then some '\t'
  else none

/-- Hex digit value. -/
def hexVal (c : Char) : Option Nat :=
  if c.isDigit then some (c.toNat - 48)
  else if 'a' ≤ c ∧ c ≤ 'f' then some (c.toNat - 87)
  else if 'A' ≤ c ∧ c ≤ 'F' then some (c.toNat - 55)
  else none

/-- Parse the optional fraction part of a JSON number; returns the consumed
lexeme and the remainder. -/
def parseFrac : List Char → Option (List Char × List Char)
  | [] => some ([], [])
  | c :: r =>
    if c = '.' then
      if (r.takeWhile Char.isDigit).isEmpty then none
      else some (c :: r.takeWhile Char.isDigit, r.dropWhile Char.isDigit)
    else some ([], c :: r)

/-- Parse the sign-and-digit tail of an exponent, after `e`/`E`. -/
def parseExpTail (c : Char) : List Char → Option (List Char × List Char)
  | [] => none
  | c2 :: r2 =>
    if c2 = '+' || c2 = '-' then
      if (r2.takeWhile Char.isDigit).isEmpty then none
      else some (c :: c2 :: r2.takeWhile Char.isDigit, r2.dropWhile Char.isDigit)
    else
      if ((c2 :: r2).takeWhile Char.isDigit).isEmpty then none
      else some (c :: (c2 :: r2).takeWhile Char.isDigit, (c2 :: r2).dropWhile Char.isDigit)

/-- Parse the optional exponent part of a JSON number. -/
def parseExpPart : List Char → Option (List Char × List Char)
  | [] => some ([], [])
  | c :: r => if c = 'e' || c = 'E' then parseExpTail c r else some ([], c :: r)

/-- Split off an optional leading minus sign. -/
def parseSign : List Char → List Char × List Char
  | [] => ([], [])
  | c :: r => if c = '-' then ([c], r) else ([], c :: r)

/-- The integer-digit run of a number lexeme. -/
def numInt (s : List Char) : List Char := (parseSign s).2.takeWhile Char.isDigit

/-- The remainder after the integer-digit run. -/
def numRest (s : List Char) : List Char := (parseSign s).2.dropWhile Char.isDigit

/-- Parse a JSON number (strict grammar: optional minus, no leading zeros,
optional fraction and exponent); returns its lexeme. -/
def parseNum (s : List Char) : Option (JsonVal × List Char) :=
  if (numInt s).isEmpty then none
  else if 1 < (numInt s).length ∧ (numInt s).headD 'x' = '0' then none
  else
    (parseFrac (numRest s)).bind fun p =>
      (parseExpPart p.2).bind fun q =>
        some (jnum ((parseSign s).1 ++ numInt s ++ p.1 ++ q.1), q.2)

mutual

/-- Parse one JSON value from the front of `s` (after optional whitespace);
returns the value and the unconsumed remainder.  Fuel-indexed to make the
mutual recursion structural. -/
def parseVal : Nat → List Char → Option (JsonVal × List Char)
  | 0, _ => none
  | fu + 1, s =>
    match s.dropWhile isJWS with
    | [] => none
    | c :: r =>
      if c = lbrace then parseFields fu r
      else if c = '[' then parseElems fu r
      else if c = '"' then
        match parseStr fu r with
        | some (t, r1) => some (jstr t, r1)
        | none => none
      else if c = 't' then
        match stripLit (chars "rue") r with
        | some r1 => some (jbool true, r1)
        | none => none
      else if c = 'f' then
        match stripLit (chars "alse") r with
        | some r1 => some (jbool false, r1)
        | none => none
      else if c = 'n' then
        match stripLit (chars "ull") r with
        | some r1 => some (jnull, r1)
        | none => none
      else parseNum (c :: r)

/-- Parse the inside of an object, starting immediately after `{`. -/
def parseFields : Nat → List Char → Option (JsonVal × List Char)
  | 0, _ => none
  | fu + 1, s =>
    match s.dropWhile isJWS with
    | [] => none
    | c :: r =>
      if c = rbrace then some (jobj [], r)
      else parsePairs fu [] (c :: r)

/-- Parse one or more `"key": value` members separated by commas, ending at
`}`. -/
def parsePairs : Nat → List (List Char × JsonVal) → List Char →
    Option (JsonVal × List Char)
  | 0, _, _ => none
  | fu + 1, acc, s =>
    match s.dropWhile isJWS with
    | [] => none
    | c :: r =>
      if c = '"' then
        match parseStr fu r with
        | none => none
        | some (key, r1) =>
          match r1.dropWhile isJWS with
          | [] => none
          | c2 :: r3 =>
            if c2 = ':' then
              match parseVal fu r3 with
              | none => none
              | some (v, r4) =>
                match r4.dropWhile isJWS with
                | [] => none
                | c3 :: r6 =>
                  if c3 = ',' then parsePairs fu (insertField acc key v) r6
                  else if c3 = rbrace then some (jobj (insertField acc key v), r6)
                  else none
            else none
      else none

/-- Parse the inside of an array, starting immediately after `[`. -/
def parseElems : Nat → List Char → Option (JsonVal × List Char)
  | 0, _ => none
  | fu + 1, s =>
    match s.dropWhile isJWS with
    | [] => none
    | c :: r =>
      if c = ']' then some (jarr [], r)
      else parseItems fu [] (c :: r)

/-- Parse one or more array elements separated by commas, ending at `]`. -/
def parseItems : Nat → List JsonVal → List Char → Option (JsonVal × List Char)
  | 0, _, _ => none
  | fu + 1, acc, s =>
    match parseVal fu s with
    | none => none
    | some (v, r1) =>
      match r1.dropWhile isJWS with
      | [] => none
      | c :: r3 =>
        if c = ',' then parseItems fu (acc ++ [v]) r3
        else if c = ']' then some (jarr (acc ++ [v]), r3)
        else none

/-- Parse the body of a JSON string, starting after the opening quote;
rejects raw control characters and bad escapes, decodes `\\uXXXX`. -/
def parseStr : Nat → List Char → Option (List Char × List Char)
  | 0, _ => none
  | _ + 1, [] => none
  | fu + 1, c :: r =>
    if c = '"' then some ([], r)
    else if c = '\\' then parseEsc fu r
    else if c.toNat < 32 then none
    else (parseStr fu r).bind fun p => some (c :: p.1, p.2)

/-- Parse one escape sequence, starting after the backslash. -/
def parseEsc : Nat → List Char → Option (List Char × List Char)
  | 0, _ => none
  | _ + 1, [] => none
  | fu + 1, e :: r2 =>
    if e = 'u' then parseHex fu r2
    else
      match escChar e with
      | some ec => (parseStr fu r2).bind fun p => some (ec :: p.1, p.2)
      | none => none

/-- Parse the four hex digits of a `\\uXXXX` escape. -/
def parseHex : Nat → List Char → Option (List Char × List Char)
  | 0, _ => none
  | fu + 1, a :: b :: c :: d :: r3 =>
    match hexVal a, hexVal b, hexVal c, hexVal d with
    | some ha, some hb, some hc, some hd =>
      (parseStr fu r3).bind fun p =>
        some (Char.ofNat (((ha * 16 + hb) * 16 + hc) * 16 + hd) :: p.1, p.2)
    | _, _, _, _ => none
  | _ + 1, _ => none

end

/-- Fuel that is always sufficient for `parseVal` (at most three
non-consuming recursive steps happen per consumed character). -/
def jsonFuel (s : List Char) : Nat := 5 * s.length + 16

/-- `JSON.parse`: parse a complete value, allowing only trailing
whitespace. -/
def parseJsonText (s : List Char) : Option JsonVal :=
  match parseVal (jsonFuel s) s with
  | some (v, rest) => if (rest.dropWhile isJWS).isEmpty then some v else none
  | none => none

/-- Do the first three characters form a triple backtick? -/
def startsTriple : List Char → Bool
  | a :: b :: c :: _ => a = btick && b = btick && c = btick
  | _ => false

/-- Consume a literal `json` tag if present (the regex `(?:json)?`,
case-sensitive). -/
def stripJsonTag (r : List Char) : List Char :=
  match stripLit (chars "json") r with
  | some r1 => r1
  | none => r

/-- Scan for the closing triple backtick; returns the content before it
(the first occurrence, as found by the lazy group of the fence regex). -/
def scanClose : List Char → Option (List Char)
  | [] => none
  | c :: rest =>
    if startsTriple (c :: rest) then some []
    else
      match scanClose rest with
      | some g => some (c :: g)
      | none => none

/-- Capture of the fence regex starting right after an opening triple
backtick: optional `json` tag, greedy whitespace, lazy content up to the
first closing fence, trailing whitespace excluded from the capture. -/
def fenceFrom (r : List Char) : Option (List Char) :=
  match scanClose ((stripJsonTag r).dropWhile isWS) with
  | some g => some (dropTrailWS g)
  | none => none

/-- First match of ```` /```(?:json)?\s*([\s\S]*?)\s*```/ ```` over the
text: the engine tries each start position left to right. -/
def findFence : List Char → Option (List Char)
  | [] => none
  | c :: rest =>
    if startsTriple (c :: rest) then
      match fenceFrom (rest.drop 2) with
      | some g => some g
      | none => findFence rest
    else findFence rest

/-- `indexOf` for a character. -/
def idxOf (ch : Char) : List Char → Option Nat
  | [] => none
  | c :: rest =>
    if c = ch then some 0
    else
      match idxOf ch rest with
      | some i => some (i + 1)
      | none => none

/-- `lastIndexOf` for a character. -/
def lastIdxOf (ch : Char) (l : List Char) : Option Nat :=
  match idxOf ch l.reverse with
  | some i => some (l.length - 1 - i)
  | none => none

/-- JavaScript `substring(a, b)`: swaps its arguments when reversed and
clamps to the string length. -/
def jsSubstring (a b : Nat) (l : List Char) : List Char :=
  (l.take (max a b)).drop (min a b)

/-- The `jsonString` before brace slicing: the first fenced block's capture
if any, else the whole text. -/
def fencedCandidate (content : List Char) : List Char :=
  match findFence content with
  | some g => g
  | none => content

/-- The candidate string handed to `JSON.parse` by Tier 1: the fenced-block
capture (or whole text), then sliced from the first `{` to the last `}`
when both exist. -/
def tier1Candidate (content : List Char) : List Char :=
  match idxOf lbrace (fencedCandidate content), lastIdxOf rbrace (fencedCandidate content) with
  | some i, some j => jsSubstring i (j + 1) (fencedCandidate content)
  | _, _ => fencedCandidate content

/-- The first coercion of source lines 125-131: wrap `ingredients` in a
one-element array unless it already is an array. -/
def coerceIng (j : JsonVal) : JsonVal :=
  if isArrB (getField j (chars "ingredients")) then j
  else setFld j (chars "ingredients") (jarr [getField j (chars "ingredients")])

/-- The second coercion: `if (!Array.isArray(recipe.instructions)) ...`. -/
def coerceIns (j : JsonVal) : JsonVal :=
  if isArrB (getField j (chars "instructions")) then j
  else setFld j (chars "instructions") (jarr [getField j (chars "instructions")])

/-- Both array coercions, in source order. -/
def coerceArrays (j : JsonVal) : JsonVal := coerceIns (coerceIng j)

/-- The validation-plus-coercion step applied to a successfully parsed
value (source lines 120-131): require `title`, `ingredients` and
`instructions` to be truthy, then coerce the two list fields.  `none`
models the thrown `Invalid recipe structure` error, which sends the
handler to the Tier-2 fallback. -/
def normalizeStep (j : JsonVal) : Option JsonVal :=
  if truthy (getField j (chars "title")) && truthy (getField j (chars "ingredients")) &&
      truthy (getField j (chars "instructions")) then
    some (coerceArrays j)
  else none

/-- Serialize a Tier-2 `Recipe` into the JSON object the handler responds
with. -/
def recipeToJson (r : Recipe) : JsonVal :=
  jobj [(chars "title", jstr r.title),
        (chars "description", jstr r.description),
        (chars "ingredients", jarr (r.ingredients.map jstr)),
        (chars "instructions", jarr (r.instructions.map jstr)),
        (chars "prepTime", jstr r.prepTime),
        (chars "cookTime", jstr r.cookTime),
        (chars "servings", jstr r.servings),
        (chars "difficulty", jstr r.difficulty)]

/-- The extraction pipeline applied to the completion text (source lines
100-149): Tier-1 fenced-block search, brace slicing and `JSON.parse`; on a
parse failure or a failed validation, the Tier-2 fallback on the original
raw text.  Total: the fallback never fails. -/
def pipelineExtract (content : List Char) : JsonVal :=
  match parseJsonText (tier1Candidate content) with
  | some v =>
    match normalizeStep v with
    | some r => r
    | none => recipeToJson (extractRecipeFromText content)
  | none => recipeToJson (extractRecipeFromText content)

/-- Outcome of the outbound model call as observed by the handler:
a thrown network error (with whether it is an `Error` instance and its
message), or an HTTP response with `ok` flag, status, status text and
parsed JSON payload. -/
inductive GwResult where
  | netFail (isErr : Bool) (msg : List Char)
  | httpResp (ok : Bool) (status : Nat) (statusText : List Char) (payload : JsonVal)

/-- HTTP-level outcome written by the handler. -/
inductive HResp where
  | ok200 (recipe : JsonVal)
  | err (status : Nat) (msg : List Char)

/-- The guard `!data.choices || !data.choices[0] || !data.choices[0].message`. -/
def missingCompletion (payload : JsonVal) : Bool :=
  !truthy (getField payload (chars "choices")) ||
  !truthy (getIdx (getField payload (chars "choices")) 0) ||
  !truthy (getField (getIdx (getField payload (chars "choices")) 0) (chars "message"))

/-- `data.choices[0].message.content`. -/
def contentOf (payload : JsonVal) : JsonVal :=
  getField (getField (getIdx (getField payload (chars "choices")) 0) (chars "message"))
    (chars "content")

/-- The service-error message for a non-ok upstream response:
`Failed to generate recipe: ${status} ${statusText}`. -/
def failMsg (status : Nat) (statusText : List Char) : List Char :=
  chars "Failed to generate recipe: " ++ Nat.toDigits 10 status ++ ' ' :: statusText

/-- The API-route handler.  Besides the response, it returns whether the
outbound gateway call was reached (second component).  `body` is the parsed
request body; a `null`/`undefined` body makes the destructuring of `image`
throw, which the outer catch turns into a 500 with the error's message. -/
def handler (method : List Char) (body : JsonVal) (apiKey : Option (List Char))
    (gw : GwResult) : HResp × Bool :=
  if method = chars "POST" then
    match body with
    | jnull =>
      (HResp.err 500 (chars "Cannot destructure property 'image' of 'req.body' as it is null."),
        false)
    | jundef =>
      (HResp.err 500 (chars "Cannot destructure property 'image' of 'req.body' as it is undefined."),
        false)
    | b =>
      if truthy (getField b (chars "image")) then
        match apiKey with
        | none => (HResp.err 500 (chars "API configuration error"), false)
        | some _ =>
          match gw with
          | GwResult.netFail isErr msg =>
            (HResp.err 500 (if isErr then msg else chars "Internal server error"), true)
          | GwResult.httpResp ok status statusText payload =>
            if ok then
              if missingCompletion payload then
                (HResp.err 500 (chars "Invalid response from AI service"), true)
              else
                match contentOf payload with
                | jstr s => (HResp.ok200 (pipelineExtract s), true)
                | _ => (HResp.err 500 (chars "Failed to parse recipe from AI response"), true)
            else (HResp.err 500 (failMsg status statusText), true)
      else (HResp.err 400 (chars "Image is required"), false)
  else (HResp.err 405 (chars "Method not allowed"), false)

/-- Concrete test input of the spec's Tier-2 example (claim C7). -/
def c7Input : List Char :=
  chars "Title: Pasta\nIngredients\n1. Pasta\n2. Cheese\nInstructions\nStep 1: Boil water\nStep 2: Add pasta"

/-- A completion whose Tier-1 object carries an empty `ingredients` array. -/
def c1Input : List Char :=
  chars "\x7b\"title\":\"X\",\"ingredients\":[],\"instructions\":[\"a\"]\x7d"

/-- An `Ingredients` header with bulleted lines followed by an
`Instructions` header with numbered lines. -/
def c3Input : List Char :=
  chars "Ingredients\n- Pasta\n- Cheese\nInstructions\n1. Boil water\n2. Add pasta"

/-- The fenced JSON object of the spec's coercion example. -/
def c8Json : List Char :=
  chars "\x7b\"title\":\"X\",\"ingredients\":\"one item\",\"instructions\":[\"a\",\"b\"]\x7d"

/-- A fenced code block tagged `json` holding `c8Json`. -/
def c8FenceText : List Char := chars "```json\n" ++ c8Json ++ chars "\n```"

/-- A raw text containing a junk fenced block before the well-formed one. -/
def c8CexInput : List Char := chars "```x```\n" ++ c8FenceText

/-- A completion that parses as JSON but misses `ingredients` and
`instructions`. -/
def c4Input : List Char := chars "\x7b\"title\":\"X\"\x7d"
theorem lookupField_map_replace (k : List Char) (v : JsonVal) :
    ∀ fs : List (List Char × JsonVal), fs.any (fun p => p.fst = k) = true →
      lookupField (fs.map (fun p => if p.fst = k then (k, v) else p)) k = v := by
  intro fs
  induction fs with
  | nil => intro h; simp at h
  | cons p rest ih =>
    intro h
    rcases p with ⟨k0, v0⟩
    simp only [List.any_cons, Bool.or_eq_true, decide_eq_true_eq] at h
    by_cases hp : k0 = k
    · have e : (if ((k0, v0) : List Char × JsonVal).fst = k then ((k, v) : List Char × JsonVal) else (k0, v0)) = (k, v) := by
        simp [hp]
      rw [List.map_cons, e]
      simp [lookupField]
    · have e : (if ((k0, v0) : List Char × JsonVal).fst = k then ((k, v) : List Char × JsonVal) else (k0, v0)) = (k0, v0) := by
        simp [hp]
      have h2 : rest.any (fun p => p.fst = k) = true := by
        rcases h with h | h
        · exact absurd h hp
        · simpa using h
      rw [List.map_cons, e]
      simp only [lookupField]
      rw [if_neg hp]
      exact ih h2

theorem lookupField_append_absent (k : List Char) (v : JsonVal) :
    ∀ fs : List (List Char × JsonVal), fs.any (fun p => p.fst = k) = false →
      lookupField (fs ++ [(k, v)]) k = v := by
  intro fs
  induction fs with
  | nil =>
    intro h
    simp [lookupField]
  | cons p rest ih =>
    intro h
    rcases p with ⟨k0, v0⟩
    simp only [List.any_cons, Bool.or_eq_false_iff, decide_eq_false_iff_not] at h
    simp only [List.cons_append, lookupField]
    rw [if_neg h.1]
    exact ih (by simp [h.2])

theorem lookupField_map_ne (k k' : List Char) (v : JsonVal) (hne : k ≠ k') :
    ∀ fs : List (List Char × JsonVal),
      lookupField (fs.map (fun p => if p.fst = k then (k, v) else p)) k' = lookupField fs k' := by
  intro fs
  induction fs with
  | nil => rfl
  | cons p rest ih =>
    rcases p with ⟨k0, v0⟩
    by_cases hp : k0 = k
    · have e : (if ((k0, v0) : List Char × JsonVal).fst = k then ((k, v) : List Char × JsonVal) else (k0, v0)) = (k, v) := by
        simp [hp]
      rw [List.map_cons, e]
      simp only [lookupField]
      rw [if_neg hne, if_neg (by rw [hp]; exact hne)]
      exact ih
    · have e : (if ((k0, v0) : List Char × JsonVal).fst = k then ((k, v) : List Char × JsonVal) else (k0, v0)) = (k0, v0) := by
        simp [hp]
      rw [List.map_cons, e]
      simp only [lookupField]
      by_cases hk' : k0 = k'
      · rw [if_pos hk', if_pos hk']
      · rw [if_neg hk', if_neg hk']
        exact ih

theorem lookupField_append_ne (k k' : List Char) (v : JsonVal) (hne : k ≠ k') :
    ∀ fs : List (List Char × JsonVal),
      lookupField (fs ++ [(k, v)]) k' = lookupField fs k' := by
  intro fs
  induction fs with
  | nil =>
    simp only [List.nil_append, lookupField]
    rw [if_neg hne]
  | cons p rest ih =>
    rcases p with ⟨k0, v0⟩
    simp only [List.cons_append, lookupField]
    by_cases hk' : k0 = k'
    · rw [if_pos hk', if_pos hk']
    · rw [if_neg hk', if_neg hk']
      exact ih

theorem getField_setFld_self (fs : List (List Char × JsonVal)) (k : List Char) (v : JsonVal) :
    getField (setFld (jobj fs) k v) k = v := by
  show lookupField (setFldF fs k v) k = v
  unfold setFldF
  by_cases h : fs.any (fun p => p.fst = k)
  · rw [if_pos h]
    exact lookupField_map_replace k v fs h
  · rw [if_neg h]
    exact lookupField_append_absent k v fs (Bool.eq_false_iff.mpr h)

theorem getField_setFld_ne (fs : List (List Char × JsonVal)) (k k' : List Char) (v : JsonVal)
    (hne : k ≠ k') : getField (setFld (jobj fs) k v) k' = getField (jobj fs) k' := by
  show lookupField (setFldF fs k v) k' = lookupField fs k'
  unfold setFldF
  by_cases h : fs.any (fun p => p.fst = k)
  · rw [if_pos h]
    exact lookupField_map_ne k k' v hne fs
  · rw [if_neg h]
    exact lookupField_append_ne k k' v hne fs

theorem coerceIng_obj (fs : List (List Char × JsonVal)) :
    ∃ fs', coerceIng (jobj fs) = jobj fs' := by
  unfold coerceIng
  by_cases h : isArrB (getField (jobj fs) (chars "ingredients"))
  · rw [if_pos h]; exact ⟨fs, rfl⟩
  · rw [if_neg h]; exact ⟨setFldF fs (chars "ingredients") (jarr [getField (jobj fs) (chars "ingredients")]), rfl⟩

theorem coerceIng_ing_arr (fs : List (List Char × JsonVal)) :
    isArrB (getField (coerceIng (jobj fs)) (chars "ingredients")) = true := by
  unfold coerceIng
  by_cases h : isArrB (getField (jobj fs) (chars "ingredients"))
  · rw [if_pos h]; exact h
  · rw [if_neg h, getField_setFld_self]; rfl

theorem coerceIng_other (fs : List (List Char × JsonVal)) (k' : List Char)
    (hne : chars "ingredients" ≠ k') :
    getField (coerceIng (jobj fs)) k' = getField (jobj fs) k' := by
  unfold coerceIng
  by_cases h : isArrB (getField (jobj fs) (chars "ingredients"))
  · rw [if_pos h]
  · rw [if_neg h, getField_setFld_ne _ _ _ _ hne]

theorem coerceIns_ins_arr (fs : List (List Char × JsonVal)) :
    isArrB (getField (coerceIns (jobj fs)) (chars "instructions")) = true := by
  unfold coerceIns
  by_cases h : isArrB (getField (jobj fs) (chars "instructions"))
  · rw [if_pos h]; exact h
  · rw [if_neg h, getField_setFld_self]; rfl

theorem coerceIns_other (fs : List (List Char × JsonVal)) (k' : List Char)
    (hne : chars "instructions" ≠ k') :
    getField (coerceIns (jobj fs)) k' = getField (jobj fs) k' := by
  unfold coerceIns
  by_cases h : isArrB (getField (jobj fs) (chars "instructions"))
  · rw [if_pos h]
  · rw [if_neg h, getField_setFld_ne _ _ _ _ hne]

theorem normalizeStep_some (v r : JsonVal) (hn : normalizeStep v = some r) :
    truthy (getField v (chars "title")) = true ∧
    truthy (getField v (chars "ingredients")) = true ∧
    truthy (getField v (chars "instructions")) = true ∧
    r = coerceArrays v := by
  unfold normalizeStep at hn
  by_cases hc : (truthy (getField v (chars "title")) && truthy (getField v (chars "ingredients")) &&
      truthy (getField v (chars "instructions"))) = true
  · rw [if_pos hc] at hn
    injection hn with hr
    simp only [Bool.and_eq_true] at hc
    exact ⟨hc.1.1, hc.1.2, hc.2, hr.symm⟩
  · rw [if_neg hc] at hn
    exact absurd hn (by simp)

theorem truthy_obj (v : JsonVal) (k : List Char) (h : truthy (getField v k) = true) :
    ∃ fs, v = jobj fs := by
  cases v with
  | jobj fs => exact ⟨fs, rfl⟩
  | jnull => simp [getField, truthy] at h
  | jundef => simp [getField, truthy] at h
  | jbool b => simp [getField, truthy] at h
  | jnum l => simp [getField, truthy] at h
  | jstr s => simp [getField, truthy] at h
  | jarr xs => simp [getField, truthy] at h


theorem stripLit_suffix : ∀ p s r, stripLit p s = some r → r <:+ s := by
  intro p
  induction p with
  | nil =>
    intro s r h
    simp only [stripLit, Option.some.injEq] at h
    exact h ▸ List.suffix_refl s
  | cons p ps ih =>
    intro s r h
    cases s with
    | nil => simp [stripLit] at h
    | cons c cs =>
      simp only [stripLit] at h
      split_ifs at h with hc
      exact (ih cs r h).trans (List.suffix_cons c cs)

theorem parseFrac_suffix (s f r : List Char) (h : parseFrac s = some (f, r)) : r <:+ s := by
  cases s with
  | nil =>
    simp only [parseFrac, Option.some.injEq, Prod.mk.injEq] at h
    exact h.2 ▸ List.suffix_refl _
  | cons c cs =>
    simp only [parseFrac] at h
    split_ifs at h with hc hd
    · simp only [Option.some.injEq, Prod.mk.injEq] at h
      exact h.2 ▸ (List.dropWhile_suffix Char.isDigit).trans (List.suffix_cons c cs)
    · simp only [Option.some.injEq, Prod.mk.injEq] at h
      exact h.2 ▸ List.suffix_refl _

theorem parseExpTail_suffix (c : Char) (s f r : List Char) (h : parseExpTail c s = some (f, r)) :
    r <:+ s := by
  cases s with
  | nil => simp [parseExpTail] at h
  | cons c2 r2 =>
    simp only [parseExpTail] at h
    split_ifs at h with hs hd hd2
    · simp only [Option.some.injEq, Prod.mk.injEq] at h
      exact h.2 ▸ (List.dropWhile_suffix Char.isDigit).trans (List.suffix_cons c2 r2)
    · simp only [Option.some.injEq, Prod.mk.injEq] at h
      exact h.2 ▸ List.dropWhile_suffix Char.isDigit

theorem parseExpPart_suffix (s f r : List Char) (h : parseExpPart s = some (f, r)) : r <:+ s := by
  cases s with
  | nil =>
    simp only [parseExpPart, Option.some.injEq, Prod.mk.injEq] at h
    exact h.2 ▸ List.suffix_refl _
  | cons c cs =>
    simp only [parseExpPart] at h
    split_ifs at h with hc
    · exact (parseExpTail_suffix c cs f r h).trans (List.suffix_cons c cs)
    · simp only [Option.some.injEq, Prod.mk.injEq] at h
      exact h.2 ▸ List.suffix_refl _

theorem parseSign_suffix (s : List Char) : (parseSign s).2 <:+ s := by
  cases s with
  | nil => exact List.suffix_refl _
  | cons c cs =>
    simp only [parseSign]
    split_ifs with hc
    · exact List.suffix_cons c cs
    · exact List.suffix_refl _

theorem numRest_suffix (s : List Char) : numRest s <:+ s :=
  (List.dropWhile_suffix Char.isDigit).trans (parseSign_suffix s)

theorem parseNum_suffix (s : List Char) (v : JsonVal) (r : List Char)
    (h : parseNum s = some (v, r)) : r <:+ s := by
  unfold parseNum at h
  split_ifs at h with h1 h2
  cases hf : parseFrac (numRest s) with
  | none => rw [hf] at h; simp at h
  | some p =>
    rw [hf] at h
    simp only [Option.some_bind] at h
    cases he : parseExpPart p.2 with
    | none => rw [he] at h; simp at h
    | some q =>
      rw [he] at h
      simp only [Option.some_bind, Option.some.injEq, Prod.mk.injEq] at h
      exact h.2 ▸ ((parseExpPart_suffix p.2 q.1 q.2 he).trans
        (parseFrac_suffix (numRest s) p.1 p.2 hf)).trans (numRest_suffix s)

theorem parseNum_shape (s : List Char) (v : JsonVal) (r : List Char)
    (h : parseNum s = some (v, r)) : ∃ lex, v = jnum lex := by
  unfold parseNum at h
  split_ifs at h with h1 h2
  cases hf : parseFrac (numRest s) with
  | none => rw [hf] at h; simp at h
  | some p =>
    rw [hf] at h
    simp only [Option.some_bind] at h
    cases he : parseExpPart p.2 with
    | none => rw [he] at h; simp at h
    | some q =>
      rw [he] at h
      simp only [Option.some_bind, Option.some.injEq, Prod.mk.injEq] at h
      exact ⟨_, h.1.symm⟩

theorem parse_suffix : ∀ fu : Nat,
    (∀ s v r, parseVal fu s = some (v, r) → r <:+ s) ∧
    (∀ s v r, parseFields fu s = some (v, r) → r <:+ s) ∧
    (∀ acc s v r, parsePairs fu acc s = some (v, r) → r <:+ s) ∧
    (∀ s v r, parseElems fu s = some (v, r) → r <:+ s) ∧
    (∀ acc s v r, parseItems fu acc s = some (v, r) → r <:+ s) ∧
    (∀ s t r, parseStr fu s = some (t, r) → r <:+ s) ∧
    (∀ s t r, parseEsc fu s = some (t, r) → r <:+ s) ∧
    (∀ s t r, parseHex fu s = some (t, r) → r <:+ s) := by
  intro fu
  induction fu with
  | zero =>
    refine ⟨?_, ?_, ?_, ?_, ?_, ?_, ?_, ?_⟩ <;> intros <;>
      simp_all [parseVal, parseFields, parsePairs, parseElems, parseItems, parseStr,
        parseEsc, parseHex]
  | succ n ih =>
    obtain ⟨ihV, ihF, ihP, ihE, ihI, ihS, ihEsc, ihHex⟩ := ih
    have hdw : ∀ s : List Char, s.dropWhile isJWS <:+ s := fun s => List.dropWhile_suffix isJWS
    refine ⟨?_, ?_, ?_, ?_, ?_, ?_, ?_, ?_⟩
    · -- parseVal
      intro s v r h
      simp only [parseVal] at h
      cases hm : s.dropWhile isJWS with
      | nil => rw [hm] at h; simp at h
      | cons c cs =>
        rw [hm] at h
        try dsimp only at h
        have hcons : c :: cs <:+ s := hm ▸ hdw s
        have hcs : cs <:+ s := (List.suffix_cons c cs).trans hcons
        split_ifs at h with h1 h2 h3 h4 h5 h6
        · exact (ihF cs v r h).trans hcs
        · exact (ihE cs v r h).trans hcs
        · cases hps : parseStr n cs with
          | none => rw [hps] at h; simp at h
          | some p =>
            obtain ⟨t1, r1⟩ := p
            rw [hps] at h
            try dsimp only at h
            simp only [Option.some.injEq, Prod.mk.injEq] at h
            exact h.2 ▸ (ihS cs t1 r1 hps).trans hcs
        · cases hsl : stripLit (chars "rue") cs with
          | none => rw [hsl] at h; simp at h
          | some r1 =>
            rw [hsl] at h
            try dsimp only at h
            simp only [Option.some.injEq, Prod.mk.injEq] at h
            exact h.2 ▸ (stripLit_suffix _ cs r1 hsl).trans hcs
        · cases hsl : stripLit (chars "alse") cs with
          | none => rw [hsl] at h; simp at h
          | some r1 =>
            rw [hsl] at h
            try dsimp only at h
            simp only [Option.some.injEq, Prod.mk.injEq] at h
            exact h.2 ▸ (stripLit_suffix _ cs r1 hsl).trans hcs
        · cases hsl : stripLit (chars "ull") cs with
          | none => rw [hsl] at h; simp at h
          | some r1 =>
            rw [hsl] at h
            try dsimp only at h
            simp only [Option.some.injEq, Prod.mk.injEq] at h
            exact h.2 ▸ (stripLit_suffix _ cs r1 hsl).trans hcs
        · exact (parseNum_suffix (c :: cs) v r h).trans hcons
    · -- parseFields
      intro s v r h
      simp only [parseFields] at h
      cases hm : s.dropWhile isJWS with
      | nil => rw [hm] at h; simp at h
      | cons c cs =>
        rw [hm] at h
        try dsimp only at h
        have hcons : c :: cs <:+ s := hm ▸ hdw s
        have hcs : cs <:+ s := (List.suffix_cons c cs).trans hcons
        split_ifs at h with h1
        · simp only [Option.some.injEq, Prod.mk.injEq] at h
          exact h.2 ▸ hcs
        · exact (ihP [] (c :: cs) v r h).trans hcons
    · -- parsePairs
      intro acc s v r h
      simp only [parsePairs] at h
      cases hm : s.dropWhile isJWS with
      | nil => rw [hm] at h; simp at h
      | cons c cs =>
        rw [hm] at h
        try dsimp only at h
        have hcons : c :: cs <:+ s := hm ▸ hdw s
        have hcs : cs <:+ s := (List.suffix_cons c cs).trans hcons
        split_ifs at h with h1
        cases hps : parseStr n cs with
        | none => rw [hps] at h; simp at h
        | some p =>
          obtain ⟨key, r1⟩ := p
          rw [hps] at h
          try dsimp only at h
          have hr1 : r1 <:+ s := (ihS cs key r1 hps).trans hcs
          cases hm2 : r1.dropWhile isJWS with
          | nil => rw [hm2] at h; simp at h
          | cons c2 r3 =>
            rw [hm2] at h
            try dsimp only at h
            have hr3 : r3 <:+ s :=
              ((List.suffix_cons c2 r3).trans (hm2 ▸ hdw r1)).trans hr1
            split_ifs at h with hc2
            cases hpv : parseVal n r3 with
            | none => rw [hpv] at h; simp at h
            | some p2 =>
              obtain ⟨v4, r4⟩ := p2
              rw [hpv] at h
              try dsimp only at h
              have hr4 : r4 <:+ s := (ihV r3 v4 r4 hpv).trans hr3
              cases hm3 : r4.dropWhile isJWS with
              | nil => rw [hm3] at h; simp at h
              | cons c3 r6 =>
                rw [hm3] at h
                try dsimp only at h
                have hr6 : r6 <:+ s :=
                  ((List.suffix_cons c3 r6).trans (hm3 ▸ hdw r4)).trans hr4
                split_ifs at h with hc3 hc4
                · exact (ihP _ r6 v r h).trans hr6
                · simp only [Option.some.injEq, Prod.mk.injEq] at h
                  exact h.2 ▸ hr6
    · -- parseElems
      intro s v r h
      simp only [parseElems] at h
      cases hm : s.dropWhile isJWS with
      | nil => rw [hm] at h; simp at h
      | cons c cs =>
        rw [hm] at h
        try dsimp only at h
        have hcons : c :: cs <:+ s := hm ▸ hdw s
        have hcs : cs <:+ s := (List.suffix_cons c cs).trans hcons
        split_ifs at h with h1
        · simp only [Option.some.injEq, Prod.mk.injEq] at h
          exact h.2 ▸ hcs
        · exact (ihI [] (c :: cs) v r h).trans hcons
    · -- parseItems
      intro acc s v r h
      simp only [parseItems] at h
      cases hpv : parseVal n s with
      | none => rw [hpv] at h; simp at h
      | some p =>
        obtain ⟨v1, r1⟩ := p
        rw [hpv] at h
        try dsimp only at h
        have hr1 : r1 <:+ s := ihV s v1 r1 hpv
        cases hm2 : r1.dropWhile isJWS with
        | nil => rw [hm2] at h; simp at h
        | cons c2 r3 =>
          rw [hm2] at h
          try dsimp only at h
          have hr3 : r3 <:+ s :=
            ((List.suffix_cons c2 r3).trans (hm2 ▸ hdw r1)).trans hr1
          split_ifs at h with hc2 hc3
          · exact (ihI _ r3 v r h).trans hr3
          · simp only [Option.some.injEq, Prod.mk.injEq] at h
            exact h.2 ▸ hr3
    · -- parseStr
      intro s t r h
      cases s with
      | nil => simp [parseStr] at h
      | cons c cs =>
        simp only [parseStr] at h
        split_ifs at h with h1 h2 h3
        · simp only [Option.some.injEq, Prod.mk.injEq] at h
          exact h.2 ▸ List.suffix_cons c cs
        · exact (ihEsc cs t r h).trans (List.suffix_cons c cs)
        · cases hps : parseStr n cs with
          | none => rw [hps] at h; simp at h
          | some p =>
            obtain ⟨t1, r1⟩ := p
            rw [hps] at h
            try dsimp only at h
            simp only [Option.some_bind, Option.some.injEq, Prod.mk.injEq] at h
            exact h.2 ▸ (ihS cs t1 r1 hps).trans (List.suffix_cons c cs)
    · -- parseEsc
      intro s t r h
      cases s with
      | nil => simp [parseEsc] at h
      | cons e r2 =>
        simp only [parseEsc] at h
        split_ifs at h with h1
        · exact (ihHex r2 t r h).trans (List.suffix_cons e r2)
        · cases hec : escChar e with
          | none => rw [hec] at h; simp at h
          | some ec =>
            rw [hec] at h
            try dsimp only at h
            cases hps : parseStr n r2 with
            | none => rw [hps] at h; simp at h
            | some p =>
              obtain ⟨t1, r1⟩ := p
              rw [hps] at h
              try dsimp only at h
              simp only [Option.some_bind, Option.some.injEq, Prod.mk.injEq] at h
              exact h.2 ▸ (ihS r2 t1 r1 hps).trans (List.suffix_cons e r2)
    · -- parseHex
      intro s t r h
      match s with
      | [] => simp [parseHex] at h
      | [a] => simp [parseHex] at h
      | [a, b] => simp [parseHex] at h
      | [a, b, c] => simp [parseHex] at h
      | a :: b :: c :: d :: r3 =>
        simp only [parseHex] at h
        cases hha : hexVal a with
        | none => rw [hha] at h; simp at h
        | some ha =>
          rw [hha] at h
          cases hhb : hexVal b with
          | none => rw [hhb] at h; simp at h
          | some hb =>
            rw [hhb] at h
            cases hhc : hexVal c with
            | none => rw [hhc] at h; simp at h
            | some hc =>
              rw [hhc] at h
              cases hhd : hexVal d with
              | none => rw [hhd] at h; simp at h
              | some hd =>
                rw [hhd] at h
                try dsimp only at h
                cases hps : parseStr n r3 with
                | none => rw [hps] at h; simp at h
                | some p =>
                  obtain ⟨t1, r1⟩ := p
                  rw [hps] at h
                  try dsimp only at h
                  simp only [Option.some_bind, Option.some.injEq, Prod.mk.injEq] at h
                  refine h.2 ▸ ((ihS r3 t1 r1 hps).trans ?_)
                  exact ((List.suffix_cons d r3).trans ((List.suffix_cons c _).trans
                    ((List.suffix_cons b _).trans (List.suffix_cons a _))))

theorem parse_shape : ∀ fu : Nat,
    (∀ s v r f, parseVal fu s = some (v, r) → v = jobj f → lbrace ∈ s ∧ rbrace ∈ s) ∧
    (∀ s v r, parseFields fu s = some (v, r) → rbrace ∈ s) ∧
    (∀ acc s v r, parsePairs fu acc s = some (v, r) → rbrace ∈ s) ∧
    (∀ s v r, parseElems fu s = some (v, r) → ∃ xs, v = jarr xs) ∧
    (∀ acc s v r, parseItems fu acc s = some (v, r) → ∃ xs, v = jarr xs) := by
  intro fu
  induction fu with
  | zero =>
    refine ⟨?_, ?_, ?_, ?_, ?_⟩ <;> intros <;>
      simp_all [parseVal, parseFields, parsePairs, parseElems, parseItems]
  | succ n ih =>
    obtain ⟨ihV, ihF, ihP, ihE, ihI⟩ := ih
    obtain ⟨sV, sF, sP, sE, sI, sS, sEsc, sHex⟩ := parse_suffix n
    have hdw : ∀ s : List Char, s.dropWhile isJWS <:+ s := fun s => List.dropWhile_suffix isJWS
    refine ⟨?_, ?_, ?_, ?_, ?_⟩
    · -- parseVal
      intro s v r f h hobj
      simp only [parseVal] at h
      cases hm : s.dropWhile isJWS with
      | nil => rw [hm] at h; simp at h
      | cons c cs =>
        rw [hm] at h
        try dsimp only at h
        have hcons : c :: cs <:+ s := hm ▸ hdw s
        have hcsub : c :: cs ⊆ s := hcons.subset
        split_ifs at h with h1 h2 h3 h4 h5 h6
        · constructor
          · exact hcsub (h1 ▸ List.mem_cons_self c cs)
          · exact hcsub (List.mem_cons_of_mem c (ihF cs v r h))
        · obtain ⟨xs, hxs⟩ := ihE cs v r h
          rw [hobj] at hxs
          exact JsonVal.noConfusion hxs
        · cases hps : parseStr n cs with
          | none => rw [hps] at h; simp at h
          | some p =>
            obtain ⟨t1, r1⟩ := p
            rw [hps] at h
            try dsimp only at h
            simp only [Option.some.injEq, Prod.mk.injEq] at h
            rw [hobj] at h
            exact JsonVal.noConfusion h.1.symm
        · cases hsl : stripLit (chars "rue") cs with
          | none => rw [hsl] at h; simp at h
          | some r1 =>
            rw [hsl] at h
            try dsimp only at h
            simp only [Option.some.injEq, Prod.mk.injEq] at h
            rw [hobj] at h
            exact JsonVal.noConfusion h.1.symm
        · cases hsl : stripLit (chars "alse") cs with
          | none => rw [hsl] at h; simp at h
          | some r1 =>
            rw [hsl] at h
            try dsimp only at h
            simp only [Option.some.injEq, Prod.mk.injEq] at h
            rw [hobj] at h
            exact JsonVal.noConfusion h.1.symm
        · cases hsl : stripLit (chars "ull") cs with
          | none => rw [hsl] at h; simp at h
          | some r1 =>
            rw [hsl] at h
            try dsimp only at h
            simp only [Option.some.injEq, Prod.mk.injEq] at h
            rw [hobj] at h
            exact JsonVal.noConfusion h.1.symm
        · obtain ⟨lex, hlex⟩ := parseNum_shape (c :: cs) v r h
          rw [hobj] at hlex
          exact JsonVal.noConfusion hlex
    · -- parseFields
      intro s v r h
      simp only [parseFields] at h
      cases hm : s.dropWhile isJWS with
      | nil => rw [hm] at h; simp at h
      | cons c cs =>
        rw [hm] at h
        try dsimp only at h
        have hcsub : c :: cs ⊆ s := (hm ▸ hdw s : (c :: cs) <:+ s).subset
        split_ifs at h with h1
        · exact hcsub (h1 ▸ List.mem_cons_self c cs)
        · exact hcsub (ihP [] (c :: cs) v r h)
    · -- parsePairs
      intro acc s v r h
      simp only [parsePairs] at h
      cases hm : s.dropWhile isJWS with
      | nil => rw [hm] at h; simp at h
      | cons c cs =>
        rw [hm] at h
        try dsimp only at h
        have hcons : c :: cs <:+ s := hm ▸ hdw s
        have hcs : cs <:+ s := (List.suffix_cons c cs).trans hcons
        split_ifs at h with h1
        cases hps : parseStr n cs with
        | none => rw [hps] at h; simp at h
        | some p =>
          obtain ⟨key, r1⟩ := p
          rw [hps] at h
          try dsimp only at h
          have hr1 : r1 <:+ s := (sS cs key r1 hps).trans hcs
          cases hm2 : r1.dropWhile isJWS with
          | nil => rw [hm2] at h; simp at h
          | cons c2 r3 =>
            rw [hm2] at h
            try dsimp only at h
            have hr3 : r3 <:+ s :=
              ((List.suffix_cons c2 r3).trans (hm2 ▸ hdw r1)).trans hr1
            split_ifs at h with hc2
            cases hpv : parseVal n r3 with
            | none => rw [hpv] at h; simp at h
            | some p2 =>
              obtain ⟨v4, r4⟩ := p2
              rw [hpv] at h
              try dsimp only at h
              have hr4 : r4 <:+ s := (sV r3 v4 r4 hpv).trans hr3
              cases hm3 : r4.dropWhile isJWS with
              | nil => rw [hm3] at h; simp at h
              | cons c3 r6 =>
                rw [hm3] at h
                try dsimp only at h
                have hc36 : c3 :: r6 <:+ s := (hm3 ▸ hdw r4).trans hr4
                split_ifs at h with hc3 hc4
                · exact ((List.suffix_cons c3 r6).trans hc36).subset (ihP _ r6 v r h)
                · exact hc36.subset (hc4 ▸ List.mem_cons_self c3 r6)
    · -- parseElems
      intro s v r h
      simp only [parseElems] at h
      cases hm : s.dropWhile isJWS with
      | nil => rw [hm] at h; simp at h
      | cons c cs =>
        rw [hm] at h
        try dsimp only at h
        split_ifs at h with h1
        · simp only [Option.some.injEq, Prod.mk.injEq] at h
          exact ⟨[], h.1.symm⟩
        · exact ihI [] (c :: cs) v r h
    · -- parseItems
      intro acc s v r h
      simp only [parseItems] at h
      cases hpv : parseVal n s with
      | none => rw [hpv] at h; simp at h
      | some p =>
        obtain ⟨v1, r1⟩ := p
        rw [hpv] at h
        try dsimp only at h
        cases hm2 : r1.dropWhile isJWS with
        | nil => rw [hm2] at h; simp at h
        | cons c2 r3 =>
          rw [hm2] at h
          try dsimp only at h
          split_ifs at h with hc2 hc3
          · exact ihI _ r3 v r h
          · simp only [Option.some.injEq, Prod.mk.injEq] at h
            exact ⟨acc ++ [v1], h.1.symm⟩

theorem parseJsonText_obj_braces (s : List Char) (f : List (List Char × JsonVal))
    (h : parseJsonText s = some (jobj f)) : lbrace ∈ s ∧ rbrace ∈ s := by
  unfold parseJsonText at h
  cases hpv : parseVal (jsonFuel s) s with
  | none => rw [hpv] at h; simp at h
  | some p =>
    obtain ⟨v, rest⟩ := p
    rw [hpv] at h
    try dsimp only at h
    split_ifs at h with hre
    simp only [Option.some.injEq] at h
    exact (parse_shape (jsonFuel s)).1 s v rest f hpv h

theorem scanClose_subset : ∀ s g, scanClose s = some g → g ⊆ s := by
  intro s
  induction s with
  | nil => intro g h; simp [scanClose] at h
  | cons c rest ih =>
    intro g h
    simp only [scanClose] at h
    split_ifs at h with h1
    · simp only [Option.some.injEq] at h
      rw [← h]
      exact List.nil_subset _
    · cases hs : scanClose rest with
      | none => rw [hs] at h; simp at h
      | some g' =>
        rw [hs] at h
        simp only [Option.some.injEq] at h
        rw [← h]
        intro x hx
        rcases List.mem_cons.mp hx with hx | hx
        · exact hx ▸ List.mem_cons_self c rest
        · exact List.mem_cons_of_mem c (ih g' hs hx)

theorem dropTrailWS_subset (l : List Char) : dropTrailWS l ⊆ l := by
  intro x hx
  unfold dropTrailWS at hx
  have h1 : x ∈ l.reverse.dropWhile isWS := List.mem_reverse.mp hx
  exact List.mem_reverse.mp ((List.dropWhile_suffix isWS).subset h1)

theorem stripJsonTag_subset (r : List Char) : stripJsonTag r ⊆ r := by
  unfold stripJsonTag
  cases hs : stripLit (chars "json") r with
  | none => exact fun x hx => hx
  | some r1 => exact (stripLit_suffix _ r r1 hs).subset

theorem fenceFrom_subset (r g : List Char) (h : fenceFrom r = some g) : g ⊆ r := by
  unfold fenceFrom at h
  cases hs : scanClose ((stripJsonTag r).dropWhile isWS) with
  | none => rw [hs] at h; simp at h
  | some g0 =>
    rw [hs] at h
    simp only [Option.some.injEq] at h
    rw [← h]
    intro x hx
    exact stripJsonTag_subset r ((List.dropWhile_suffix isWS).subset
      (scanClose_subset _ g0 hs (dropTrailWS_subset g0 hx)))

theorem findFence_subset : ∀ l g, findFence l = some g → g ⊆ l := by
  intro l
  induction l with
  | nil => intro g h; simp [findFence] at h
  | cons c rest ih =>
    intro g h
    simp only [findFence] at h
    split_ifs at h with h1
    · cases hf : fenceFrom (rest.drop 2) with
      | none =>
        rw [hf] at h
        exact fun x hx => List.mem_cons_of_mem c (ih g h hx)
      | some g' =>
        rw [hf] at h
        simp only [Option.some.injEq] at h
        rw [← h]
        intro x hx
        exact List.mem_cons_of_mem c (List.drop_subset 2 rest (fenceFrom_subset _ g' hf hx))
    · exact fun x hx => List.mem_cons_of_mem c (ih g h hx)

theorem fencedCandidate_subset (content : List Char) : fencedCandidate content ⊆ content := by
  unfold fencedCandidate
  cases hf : findFence content with
  | none => exact fun x hx => hx
  | some g => exact fun x hx => findFence_subset content g hf hx

theorem tier1Candidate_subset (content : List Char) : tier1Candidate content ⊆ content := by
  unfold tier1Candidate
  cases h1 : idxOf lbrace (fencedCandidate content) with
  | none => exact fun x hx => fencedCandidate_subset content hx
  | some i =>
    cases h2 : lastIdxOf rbrace (fencedCandidate content) with
    | none => exact fun x hx => fencedCandidate_subset content hx
    | some j =>
      intro x hx
      exact fencedCandidate_subset content (List.take_subset _ _ (List.drop_subset _ _ hx))

theorem extract_nonempty (text : List Char) :
    (extractRecipeFromText text).ingredients ≠ [] ∧
    (extractRecipeFromText text).instructions ≠ [] := by
  constructor
  · show (if (ingScan ((splitNl text).filter (fun l => !(trim l).isEmpty)) false []).isEmpty
        then [chars "Ingredients not clearly specified in the image"]
        else ingScan ((splitNl text).filter (fun l => !(trim l).isEmpty)) false []) ≠ []
    split_ifs with h
    · simp
    · simpa [List.isEmpty_iff] using h
  · show (if (insScan ((splitNl text).filter (fun l => !(trim l).isEmpty)) false []).isEmpty
        then [chars "Instructions not clearly specified in the image"]
        else insScan ((splitNl text).filter (fun l => !(trim l).isEmpty)) false []) ≠ []
    split_ifs with h
    · simp
    · simpa [List.isEmpty_iff] using h


theorem splitNl_single (l : List Char) (h : '\n' ∉ l) : splitNl l = [l] := by
  induction l with
  | nil => rfl
  | cons c cs ih =>
    have hc : c ≠ '\n' := fun he => h (he ▸ List.mem_cons_self c cs)
    simp only [splitNl]
    rw [if_neg hc, ih (fun hm => h (List.mem_cons_of_mem c hm))]

theorem splitNl_append (l r : List Char) (h : '\n' ∉ l) :
    splitNl (l ++ '\n' :: r) = l :: splitNl r := by
  induction l with
  | nil =>
    simp [splitNl]
  | cons c cs ih =>
    have hc : c ≠ '\n' := fun he => h (he ▸ List.mem_cons_self c cs)
    simp only [List.cons_append, splitNl, List.append_eq]
    rw [if_neg hc, ih (fun hm => h (List.mem_cons_of_mem c hm))]

theorem splitNl_joinNl : ∀ ls : List (List Char), ls ≠ [] → (∀ l ∈ ls, '\n' ∉ l) →
    splitNl (joinNl ls) = ls := by
  intro ls
  induction ls with
  | nil => intro h; exact absurd rfl h
  | cons l ls' ih =>
    intro _ hmem
    cases ls' with
    | nil => exact splitNl_single l (hmem l (List.mem_cons_self l []))
    | cons l2 ls'' =>
      show splitNl (l ++ '\n' :: joinNl (l2 :: ls'')) = l :: l2 :: ls''
      rw [splitNl_append l _ (hmem l (List.mem_cons_self l _))]
      rw [ih (by simp) (fun x hx => hmem x (List.mem_cons_of_mem l hx))]

theorem bulletTest_ne_nil (l : List Char) (h : bulletTest l = true) : l ≠ [] := by
  intro he
  subst he
  simp [bulletTest, bulletSplit] at h

theorem stepSplit_none_of_not_test (l : List Char) (h : stepTest l = false) :
    stepSplit l = none := by
  unfold stepTest at h
  unfold stepSplit
  cases hs : stripCI (chars "step") l with
  | none => rfl
  | some r =>
    rw [hs] at h
    dsimp only at h
    have h' : ((r.dropWhile isWS).takeWhile Char.isDigit).isEmpty = true := by
      cases hx : ((r.dropWhile isWS).takeWhile Char.isDigit).isEmpty with
      | true => rfl
      | false => rw [hx] at h; exact absurd h (by decide)
    dsimp only
    rw [if_pos h']

theorem stepStrip_eq_self (l : List Char) (h : stepTest l = false) : stepStrip l = l := by
  unfold stepStrip
  rw [stepSplit_none_of_not_test l h]
  rfl

theorem ingScan_hdr1 (rest : List (List Char)) (flag : Bool) (acc : List (List Char)) :
    ingScan (chars "Ingredients" :: rest) flag acc = ingScan rest true acc := rfl

theorem ingScan_hdr2 (rest : List (List Char)) (flag : Bool) (acc : List (List Char)) :
    ingScan (chars "Instructions" :: rest) flag acc = ingScan rest false acc := rfl

theorem insScan_hdr (rest : List (List Char)) (flag : Bool) (acc : List (List Char)) :
    insScan (chars "Instructions" :: rest) flag acc = insScan rest true acc := rfl

theorem ingScan_collect (ls : List (List Char)) :
    ∀ (rest : List (List Char)) (flag : Bool) (acc : List (List Char)),
      (∀ l ∈ ls, trim l = l ∧ ingHdr l = false ∧ insHdr l = false ∧ bulletTest l = true) →
      (∀ l ∈ ls, trim (bulletStrip l) ≠ []) →
      (acc ++ ls.map (fun l => trim (bulletStrip l))).Nodup →
      ingScan (ls ++ rest) flag acc =
        ingScan rest flag (acc ++ ls.map (fun l => trim (bulletStrip l))) := by
  induction ls with
  | nil => intro rest flag acc _ _ _; simp
  | cons l ls' ih =>
    intro rest flag acc hprops hstrip hnd
    obtain ⟨htr, hig, hins, hbt⟩ := hprops l (List.mem_cons_self l ls')
    have hc : trim (bulletStrip l) ≠ [] := hstrip l (List.mem_cons_self l ls')
    have hnotin : trim (bulletStrip l) ∉ acc := by
      intro hmem
      have hd := (List.nodup_append.mp (by simpa using hnd)).2.2
      exact hd hmem (by simp)
    show ingScan (l :: (ls' ++ rest)) flag acc = _
    simp only [ingScan]
    rw [htr, hig, hins, hbt]
    simp only [Bool.false_eq_true, if_false, Bool.or_true, if_true]
    rw [if_pos ⟨hc, hnotin⟩]
    rw [ih rest flag (acc ++ [trim (bulletStrip l)])
      (fun x hx => hprops x (List.mem_cons_of_mem l hx))
      (fun x hx => hstrip x (List.mem_cons_of_mem l hx))
      (by simpa [List.append_assoc] using hnd)]
    simp [List.append_assoc]

theorem insScan_skip (ls : List (List Char)) :
    ∀ (rest : List (List Char)) (acc : List (List Char)),
      (∀ l ∈ ls, trim l = l ∧ insHdr l = false ∧ stepTest l = false) →
      insScan (ls ++ rest) false acc = insScan rest false acc := by
  induction ls with
  | nil => intro rest acc _; simp
  | cons l ls' ih =>
    intro rest acc hprops
    obtain ⟨htr, hins, hst⟩ := hprops l (List.mem_cons_self l ls')
    show insScan (l :: (ls' ++ rest)) false acc = _
    simp only [insScan]
    rw [htr, hins, hst]
    simp only [Bool.false_eq_true, if_false, Bool.or_self]
    exact ih rest acc (fun x hx => hprops x (List.mem_cons_of_mem l hx))

theorem insScan_collect (ls : List (List Char)) :
    ∀ (rest : List (List Char)) (acc : List (List Char)),
      (∀ l ∈ ls, trim l = l ∧ insHdr l = false ∧ stepTest l = false ∧ l ≠ []) →
      (acc ++ ls).Nodup →
      insScan (ls ++ rest) true acc = insScan rest true (acc ++ ls) := by
  induction ls with
  | nil => intro rest acc _ _; simp
  | cons l ls' ih =>
    intro rest acc hprops hnd
    obtain ⟨htr, hins, hst, hne⟩ := hprops l (List.mem_cons_self l ls')
    have hcl : trim (stepStrip (trim l)) = l := by
      rw [htr, stepStrip_eq_self l hst, htr]
    have hnotin : l ∉ acc := by
      intro hmem
      have hd := (List.nodup_append.mp (by simpa using hnd)).2.2
      exact hd hmem (by simp)
    show insScan (l :: (ls' ++ rest)) true acc = _
    simp only [insScan]
    rw [htr, hins]
    simp only [Bool.false_eq_true, if_false, Bool.true_or, if_true]
    rw [htr] at hcl
    rw [hcl]
    rw [if_pos ⟨hne, hnotin⟩]
    rw [ih rest (acc ++ [l])
      (fun x hx => hprops x (List.mem_cons_of_mem l hx))
      (by simpa [List.append_assoc] using hnd)]
    simp [List.append_assoc]


theorem startsTriple_false_of_ne (c : Char) (l : List Char) (h : c ≠ btick) :
    startsTriple (c :: l) = false := by
  cases l with
  | nil => rfl
  | cons b t =>
    cases t with
    | nil => rfl
    | cons c2 t2 => simp [startsTriple, h]

theorem findFence_append_skip (pre : List Char) (X : List Char)
    (hpre : ∀ c ∈ pre, c ≠ btick) : findFence (pre ++ X) = findFence X := by
  induction pre with
  | nil => rfl
  | cons c pre' ih =>
    have hc : c ≠ btick := hpre c (List.mem_cons_self c pre')
    show findFence (c :: (pre' ++ X)) = findFence X
    simp only [findFence]
    rw [startsTriple_false_of_ne c _ hc]
    simp only [Bool.false_eq_true, if_false]
    exact ih (fun x hx => hpre x (List.mem_cons_of_mem c hx))

theorem scanClose_append_skip (l : List Char) :
    ∀ r : List Char, (∀ c ∈ l, c ≠ btick) →
      scanClose (l ++ r) = (scanClose r).map (fun g => l ++ g) := by
  induction l with
  | nil =>
    intro r _
    cases h : scanClose r <;> simp [h]
  | cons c l' ih =>
    intro r h
    have hc : c ≠ btick := h c (List.mem_cons_self c l')
    show scanClose (c :: (l' ++ r)) = _
    simp only [scanClose]
    rw [startsTriple_false_of_ne c _ hc]
    simp only [Bool.false_eq_true, if_false]
    rw [ih r (fun x hx => h x (List.mem_cons_of_mem c hx))]
    cases hr : scanClose r <;> simp [hr]

/-- Claim C1, counterexample: the completion `{"title":"X","ingredients":[],
"instructions":["a"]}` passes Tier-1 validation (an empty array is truthy in
JavaScript) and escapes the pipeline as a success whose `ingredients` is an
empty sequence, contradicting the claimed invariant. -/
theorem c1_counterexample :
    pipelineExtract c1Input =
      jobj [(chars "title", jstr (chars "X")),
            (chars "ingredients", jarr []),
            (chars "instructions", jarr [jstr (chars "a")])] := rfl

/-- Claim C1, amended: every value returned by the extraction+normalization
pipeline has `ingredients` and `instructions` present as JSON arrays and a
`title` that is present (neither `null` nor `undefined`); the stronger
non-emptiness part of the original claim fails (see `c1_counterexample`). -/
theorem c1_amended_shape (content : List Char) :
    isArrB (getField (pipelineExtract content) (chars "ingredients")) = true ∧
    isArrB (getField (pipelineExtract content) (chars "instructions")) = true ∧
    getField (pipelineExtract content) (chars "title") ≠ jnull ∧
    getField (pipelineExtract content) (chars "title") ≠ jundef := by
  have tier2 : ∀ rc : Recipe,
      isArrB (getField (recipeToJson rc) (chars "ingredients")) = true ∧
      isArrB (getField (recipeToJson rc) (chars "instructions")) = true ∧
      getField (recipeToJson rc) (chars "title") ≠ jnull ∧
      getField (recipeToJson rc) (chars "title") ≠ jundef := by
    intro rc
    refine ⟨rfl, rfl, ?_, ?_⟩ <;> intro h <;> exact JsonVal.noConfusion h
  cases hps : parseJsonText (tier1Candidate content) with
  | none =>
    have he : pipelineExtract content = recipeToJson (extractRecipeFromText content) := by
      simp only [pipelineExtract]
      rw [hps]
    rw [he]
    exact tier2 _
  | some v =>
    cases hn : normalizeStep v with
    | none =>
      have he : pipelineExtract content = recipeToJson (extractRecipeFromText content) := by
        simp only [pipelineExtract]
        rw [hps]
        show (match normalizeStep v with
              | some r => r
              | none => recipeToJson (extractRecipeFromText content)) =
            recipeToJson (extractRecipeFromText content)
        rw [hn]
      rw [he]
      exact tier2 _
    | some r =>
      have he : pipelineExtract content = r := by
        simp only [pipelineExtract]
        rw [hps]
        show (match normalizeStep v with
              | some r => r
              | none => recipeToJson (extractRecipeFromText content)) = r
        rw [hn]
      rw [he]
      obtain ⟨ht, hi, hs, hr⟩ := normalizeStep_some v r hn
      obtain ⟨fs, hv⟩ := truthy_obj v (chars "title") ht
      subst hv
      subst hr
      obtain ⟨fs1, h1⟩ := coerceIng_obj fs
      have key_ne : chars "instructions" ≠ chars "ingredients" := by decide
      have key_ne2 : chars "instructions" ≠ chars "title" := by decide
      have key_ne3 : chars "ingredients" ≠ chars "title" := by decide
      refine ⟨?_, ?_, ?_, ?_⟩
      · show isArrB (getField (coerceIns (coerceIng (jobj fs))) (chars "ingredients")) = true
        rw [h1, coerceIns_other fs1 _ key_ne, ← h1, coerceIng_ing_arr]
      · show isArrB (getField (coerceIns (coerceIng (jobj fs))) (chars "instructions")) = true
        rw [h1, coerceIns_ins_arr]
      · have e : getField (coerceIns (coerceIng (jobj fs))) (chars "title") =
            getField (jobj fs) (chars "title") := by
          rw [h1, coerceIns_other fs1 _ key_ne2, ← h1, coerceIng_other fs _ key_ne3]
        show getField (coerceIns (coerceIng (jobj fs))) (chars "title") ≠ jnull
        rw [e]
        intro h
        rw [h] at ht
        exact absurd ht (by decide)
      · have e : getField (coerceIns (coerceIng (jobj fs))) (chars "title") =
            getField (jobj fs) (chars "title") := by
          rw [h1, coerceIns_other fs1 _ key_ne2, ← h1, coerceIng_other fs _ key_ne3]
        show getField (coerceIns (coerceIng (jobj fs))) (chars "title") ≠ jundef
        rw [e]
        intro h
        rw [h] at ht
        exact absurd ht (by decide)

/-- Claim C2, counterexample: a whitespace-only `image` string is truthy, so
the handler does not return the 400 outcome and the gateway is invoked
(second component `true`). -/
theorem c2_counterexample :
    handler (chars "POST") (jobj [(chars "image", jstr (chars " "))])
      (some (chars "key")) (GwResult.netFail true (chars "fetch failed")) =
      (HResp.err 500 (chars "fetch failed"), true) := rfl

/-- Claim C2, amended: for every request whose `image` field is the empty
string or absent (falsy), the handler returns the 400 bad-request outcome
and the gateway is never invoked, whatever the configuration and gateway
would have produced. -/
theorem c2_amended (apiKey : Option (List Char)) (gw : GwResult) :
    handler (chars "POST") (jobj [(chars "image", jstr [])]) apiKey gw =
        (HResp.err 400 (chars "Image is required"), false) ∧
    handler (chars "POST") (jobj []) apiKey gw =
        (HResp.err 400 (chars "Image is required"), false) := ⟨rfl, rfl⟩

/-- Claim C3, counterexample: on a text with an `Ingredients` header,
bulleted lines, an `Instructions` header and numbered lines, the numbered
lines also match the bullet pattern and are appended to `ingredients`, and
the instruction scanner strips only `step N` prefixes, so the numbered
markers remain in `instructions`. -/
theorem c3_counterexample :
    (extractRecipeFromText c3Input).ingredients =
      [chars "Pasta", chars "Cheese", chars "Boil water", chars "Add pasta"] ∧
    (extractRecipeFromText c3Input).instructions =
      [chars "1. Boil water", chars "2. Add pasta"] ∧
    (extractRecipeFromText c3Input).ingredients ≠ [chars "Pasta", chars "Cheese"] ∧
    (extractRecipeFromText c3Input).instructions ≠ [chars "Boil water", chars "Add pasta"] := by
  decide

/-- Claim C3, amended: for every text made of an `Ingredients` header line,
bulleted lines, an `Instructions` header line and numbered lines (plain
trimmed lines matching the bullet pattern, not headers, not `step`-prefixed,
with distinct non-empty stripped contents), Tier 2 produces as `ingredients`
the bullet-stripped bulleted lines followed by the number-stripped numbered
lines, in order, and as `instructions` the numbered lines verbatim (their
number markers are not stripped); neither header appears as content. -/
theorem c3_amended (bs ns : List (List Char))
    (hbs : ∀ l ∈ bs, ('\n' ∉ l) ∧ trim l = l ∧ ingHdr l = false ∧ insHdr l = false ∧
      bulletTest l = true ∧ stepTest l = false)
    (hns : ∀ l ∈ ns, ('\n' ∉ l) ∧ trim l = l ∧ ingHdr l = false ∧ insHdr l = false ∧
      bulletTest l = true ∧ stepTest l = false)
    (hbne : bs ≠ []) (hnne : ns ≠ [])
    (hstrip : ∀ l ∈ bs ++ ns, trim (bulletStrip l) ≠ [])
    (hnd : ((bs ++ ns).map (fun l => trim (bulletStrip l))).Nodup)
    (hndn : ns.Nodup) :
    (extractRecipeFromText (joinNl (chars "Ingredients" :: (bs ++ chars "Instructions" :: ns)))).ingredients =
      (bs ++ ns).map (fun l => trim (bulletStrip l)) ∧
    (extractRecipeFromText (joinNl (chars "Ingredients" :: (bs ++ chars "Instructions" :: ns)))).instructions =
      ns := by
  have hmemnl : ∀ l ∈ chars "Ingredients" :: (bs ++ chars "Instructions" :: ns), '\n' ∉ l := by
    intro l hl
    rcases List.mem_cons.mp hl with he | hl2
    · subst he; decide
    · rcases List.mem_append.mp hl2 with hb | hl3
      · exact (hbs l hb).1
      · rcases List.mem_cons.mp hl3 with he | hn
        · subst he; decide
        · exact (hns l hn).1
  have hsplit : splitNl (joinNl (chars "Ingredients" :: (bs ++ chars "Instructions" :: ns))) =
      chars "Ingredients" :: (bs ++ chars "Instructions" :: ns) :=
    splitNl_joinNl _ (by simp) hmemnl
  have hfilter : (chars "Ingredients" :: (bs ++ chars "Instructions" :: ns)).filter
      (fun l => !(trim l).isEmpty) = chars "Ingredients" :: (bs ++ chars "Instructions" :: ns) := by
    rw [List.filter_eq_self]
    intro l hl
    rcases List.mem_cons.mp hl with he | hl2
    · subst he; decide
    · rcases List.mem_append.mp hl2 with hb | hl3
      · obtain ⟨_, htr, _, _, hbt, _⟩ := hbs l hb
        have : l ≠ [] := bulletTest_ne_nil l hbt
        rw [htr]
        simpa [List.isEmpty_iff] using this
      · rcases List.mem_cons.mp hl3 with he | hn
        · subst he; decide
        · obtain ⟨_, htr, _, _, hbt, _⟩ := hns l hn
          have : l ≠ [] := bulletTest_ne_nil l hbt
          rw [htr]
          simpa [List.isEmpty_iff] using this
  have hbsP : ∀ l ∈ bs, trim l = l ∧ ingHdr l = false ∧ insHdr l = false ∧ bulletTest l = true :=
    fun l hl => ⟨(hbs l hl).2.1, (hbs l hl).2.2.1, (hbs l hl).2.2.2.1, (hbs l hl).2.2.2.2.1⟩
  have hnsP : ∀ l ∈ ns, trim l = l ∧ ingHdr l = false ∧ insHdr l = false ∧ bulletTest l = true :=
    fun l hl => ⟨(hns l hl).2.1, (hns l hl).2.2.1, (hns l hl).2.2.2.1, (hns l hl).2.2.2.2.1⟩
  have hndmap : (bs.map (fun l => trim (bulletStrip l)) ++
      ns.map (fun l => trim (bulletStrip l))).Nodup := by
    rw [← List.map_append]
    exact hnd
  have hing : ingScan (chars "Ingredients" :: (bs ++ chars "Instructions" :: ns)) false [] =
      (bs ++ ns).map (fun l => trim (bulletStrip l)) := by
    rw [ingScan_hdr1]
    rw [ingScan_collect bs (chars "Instructions" :: ns) true []
      hbsP (fun l hl => hstrip l (List.mem_append.mpr (Or.inl hl)))
      (by simpa using hndmap.of_append_left)]
    rw [List.nil_append, ingScan_hdr2]
    have hcoll := ingScan_collect ns [] false (bs.map (fun l => trim (bulletStrip l)))
      hnsP (fun l hl => hstrip l (List.mem_append.mpr (Or.inr hl))) hndmap
    rw [List.append_nil] at hcoll
    rw [hcoll]
    show bs.map (fun l => trim (bulletStrip l)) ++ ns.map (fun l => trim (bulletStrip l)) =
      (bs ++ ns).map (fun l => trim (bulletStrip l))
    rw [List.map_append]
  have hins : insScan (chars "Ingredients" :: (bs ++ chars "Instructions" :: ns)) false [] = ns := by
    have hskip := insScan_skip (chars "Ingredients" :: bs) (chars "Instructions" :: ns) []
      (by
        intro l hl
        rcases List.mem_cons.mp hl with he | hb
        · subst he; refine ⟨by decide, by decide, by decide⟩
        · exact ⟨(hbs l hb).2.1, (hbs l hb).2.2.2.1, (hbs l hb).2.2.2.2.2⟩)
    rw [List.cons_append] at hskip
    rw [hskip, insScan_hdr]
    have hcoll := insScan_collect ns [] []
      (fun l hl => ⟨(hns l hl).2.1, (hns l hl).2.2.2.1, (hns l hl).2.2.2.2.2,
        bulletTest_ne_nil l (hns l hl).2.2.2.2.1⟩)
      (by simpa using hndn)
    rw [List.append_nil] at hcoll
    rw [hcoll]
    rfl
  have hne2 : ((bs ++ ns).map (fun l => trim (bulletStrip l))).isEmpty = false := by
    cases bs with
    | nil => exact absurd rfl hbne
    | cons b bs' => rfl
  have hnsne : ns.isEmpty = false := by
    cases ns with
    | nil => exact absurd rfl hnne
    | cons n ns' => rfl
  constructor
  · show (if (ingScan ((splitNl (joinNl (chars "Ingredients" :: (bs ++ chars "Instructions" :: ns)))).filter
        (fun l => !(trim l).isEmpty)) false []).isEmpty
      then [chars "Ingredients not clearly specified in the image"]
      else ingScan ((splitNl (joinNl (chars "Ingredients" :: (bs ++ chars "Instructions" :: ns)))).filter
        (fun l => !(trim l).isEmpty)) false []) = (bs ++ ns).map (fun l => trim (bulletStrip l))
    rw [hsplit, hfilter, hing, hne2]
    simp
  · show (if (insScan ((splitNl (joinNl (chars "Ingredients" :: (bs ++ chars "Instructions" :: ns)))).filter
        (fun l => !(trim l).isEmpty)) false []).isEmpty
      then [chars "Instructions not clearly specified in the image"]
      else insScan ((splitNl (joinNl (chars "Ingredients" :: (bs ++ chars "Instructions" :: ns)))).filter
        (fun l => !(trim l).isEmpty)) false []) = ns
    rw [hsplit, hfilter, hins, hnsne]
    simp

theorem c3_amended_witness :
    (extractRecipeFromText (joinNl (chars "Ingredients" ::
        ([chars "- Pasta", chars "- Cheese"] ++ chars "Instructions" ::
          [chars "1. Boil water", chars "2. Add pasta"])))).ingredients =
      [chars "Pasta", chars "Cheese", chars "Boil water", chars "Add pasta"] ∧
    (extractRecipeFromText (joinNl (chars "Ingredients" ::
        ([chars "- Pasta", chars "- Cheese"] ++ chars "Instructions" ::
          [chars "1. Boil water", chars "2. Add pasta"])))).instructions =
      [chars "1. Boil water", chars "2. Add pasta"] := by
  have h := c3_amended [chars "- Pasta", chars "- Cheese"]
    [chars "1. Boil water", chars "2. Add pasta"]
    (by decide) (by decide) (by decide) (by decide) (by decide) (by decide) (by decide)
  exact ⟨h.1.trans (by decide), h.2⟩

/-- Claim C4: when Tier-1 JSON parsing succeeds but the parsed object is
missing `title`, `ingredients` or `instructions`, the extractor falls
through to Tier-2 heuristic extraction applied to the original raw text and
the request still produces a recipe. -/
theorem c4_missing_fields_fall_through (content : List Char) (v : JsonVal)
    (hp : parseJsonText (tier1Candidate content) = some v)
    (hm : getField v (chars "title") = jundef ∨
          getField v (chars "ingredients") = jundef ∨
          getField v (chars "instructions") = jundef) :
    pipelineExtract content = recipeToJson (extractRecipeFromText content) := by
  have hn : normalizeStep v = none := by
    rcases hm with h | h | h <;> simp [normalizeStep, h, truthy]
  simp only [pipelineExtract]
  rw [hp]
  simp [hn]

/-- Claim C4, witness: the completion `{"title":"X"}` parses but misses the
two list fields, and the pipeline produces the Tier-2 recipe for the raw
text. -/
theorem c4_witness :
    parseJsonText (tier1Candidate c4Input) = some (jobj [(chars "title", jstr (chars "X"))]) ∧
    pipelineExtract c4Input = recipeToJson (extractRecipeFromText c4Input) :=
  ⟨rfl, c4_missing_fields_fall_through c4Input _ rfl (Or.inr (Or.inl rfl))⟩

/-- Claim C5: an HTTP non-success response, a response missing the expected
completion field, and a network failure produce three pairwise-distinct
service-error outcomes at the response boundary (distinct 500 messages),
provided the upstream exception message does not coincide with one of the
two fixed strings. -/
theorem c5_gateway_errors_distinct (status : Nat) (statusText : List Char)
    (payload : JsonVal) (netMsg : List Char)
    (hmiss : missingCompletion payload = true)
    (h1 : netMsg ≠ chars "Invalid response from AI service")
    (h2 : netMsg ≠ failMsg status statusText) :
    (handler (chars "POST") (jobj [(chars "image", jstr (chars "img"))]) (some (chars "key"))
        (GwResult.httpResp false status statusText payload)).1 =
      HResp.err 500 (failMsg status statusText) ∧
    (handler (chars "POST") (jobj [(chars "image", jstr (chars "img"))]) (some (chars "key"))
        (GwResult.httpResp true status statusText payload)).1 =
      HResp.err 500 (chars "Invalid response from AI service") ∧
    (handler (chars "POST") (jobj [(chars "image", jstr (chars "img"))]) (some (chars "key"))
        (GwResult.netFail true netMsg)).1 =
      HResp.err 500 netMsg ∧
    HResp.err 500 (failMsg status statusText) ≠
      HResp.err 500 (chars "Invalid response from AI service") ∧
    HResp.err 500 (failMsg status statusText) ≠ HResp.err 500 netMsg ∧
    HResp.err 500 (chars "Invalid response from AI service") ≠ HResp.err 500 netMsg := by
  refine ⟨rfl, ?_, rfl, ?_, ?_, ?_⟩
  · simp only [handler]
    rw [hmiss]
    rfl
  · intro h
    injection h with h500 hmsgs
    have hh : (failMsg status statusText).head? = some 'F' := rfl
    rw [hmsgs] at hh
    exact absurd hh (by decide)
  · intro h
    injection h with h500 hmsgs
    exact h2 hmsgs.symm
  · intro h
    injection h with h500 hmsgs
    exact h1 hmsgs.symm

/-- Claim C5, witness: a concrete instantiation with status 502 and the
usual `fetch failed` network-error message. -/
theorem c5_witness :
    missingCompletion (jobj []) = true ∧
    ((handler (chars "POST") (jobj [(chars "image", jstr (chars "img"))]) (some (chars "key"))
        (GwResult.httpResp false 502 (chars "Bad Gateway") (jobj []))).1 =
      HResp.err 500 (failMsg 502 (chars "Bad Gateway")) ∧
    (handler (chars "POST") (jobj [(chars "image", jstr (chars "img"))]) (some (chars "key"))
        (GwResult.httpResp true 502 (chars "Bad Gateway") (jobj []))).1 =
      HResp.err 500 (chars "Invalid response from AI service") ∧
    (handler (chars "POST") (jobj [(chars "image", jstr (chars "img"))]) (some (chars "key"))
        (GwResult.netFail true (chars "fetch failed"))).1 =
      HResp.err 500 (chars "fetch failed") ∧
    HResp.err 500 (failMsg 502 (chars "Bad Gateway")) ≠
      HResp.err 500 (chars "Invalid response from AI service") ∧
    HResp.err 500 (failMsg 502 (chars "Bad Gateway")) ≠ HResp.err 500 (chars "fetch failed") ∧
    HResp.err 500 (chars "Invalid response from AI service") ≠
      HResp.err 500 (chars "fetch failed")) :=
  ⟨by decide, c5_gateway_errors_distinct 502 (chars "Bad Gateway") (jobj [])
    (chars "fetch failed") (by decide) (by decide) (by decide)⟩

/-- Claim C6: for every completion containing no `{` or no `}`, Tier-1
yields no usable object, the pipeline falls through to Tier 2 on the raw
text, and the (total) Tier-2 extractor returns a recipe whose ingredient
and instruction lists are never empty. -/
theorem c6_no_brace_tier2_total (content : List Char)
    (h : lbrace ∉ content ∨ rbrace ∉ content) :
    pipelineExtract content = recipeToJson (extractRecipeFromText content) ∧
    (extractRecipeFromText content).ingredients ≠ [] ∧
    (extractRecipeFromText content).instructions ≠ [] := by
  refine ⟨?_, (extract_nonempty content).1, (extract_nonempty content).2⟩
  cases hps : parseJsonText (tier1Candidate content) with
  | none =>
    simp only [pipelineExtract]
    rw [hps]
  | some v =>
    have hnobj : normalizeStep v = none := by
      cases v with
      | jobj f =>
        exfalso
        have hbr := parseJsonText_obj_braces _ f hps
        have hsub := tier1Candidate_subset content
        rcases h with h | h
        · exact h (hsub hbr.1)
        · exact h (hsub hbr.2)
      | jnull => rfl
      | jundef => rfl
      | jbool b => rfl
      | jnum l => rfl
      | jstr s => rfl
      | jarr xs => rfl
    simp only [pipelineExtract]
    rw [hps]
    show (match normalizeStep v with
          | some r => r
          | none => recipeToJson (extractRecipeFromText content)) =
        recipeToJson (extractRecipeFromText content)
    rw [hnobj]

theorem c6_witness :
    (lbrace ∉ chars "hello" ∨ rbrace ∉ chars "hello") ∧
    pipelineExtract (chars "hello") = recipeToJson (extractRecipeFromText (chars "hello")) ∧
    (extractRecipeFromText (chars "hello")).ingredients ≠ [] ∧
    (extractRecipeFromText (chars "hello")).instructions ≠ [] :=
  ⟨Or.inl (by decide), c6_no_brace_tier2_total (chars "hello") (Or.inl (by decide))⟩

/-- Claim C7: on the spec's concrete example text, Tier-2 extraction yields
title `Pasta`, ingredients `["Pasta","Cheese"]` and instructions
`["Boil water","Add pasta"]`. -/
theorem c7_concrete_tier2 :
    (extractRecipeFromText c7Input).title = chars "Pasta" ∧
    (extractRecipeFromText c7Input).ingredients = [chars "Pasta", chars "Cheese"] ∧
    (extractRecipeFromText c7Input).instructions = [chars "Boil water", chars "Add pasta"] := by
  decide

/-- Claim C8, counterexample: a raw text containing a junk fenced block
before the well-formed JSON one; the regex takes the first block, Tier-1
fails on it, and Tier-2 does not produce the coerced `["one item"]`. -/
theorem c8_counterexample :
    parseJsonText c8Json =
      some (jobj [(chars "title", jstr (chars "X")),
                  (chars "ingredients", jstr (chars "one item")),
                  (chars "instructions", jarr [jstr (chars "a"), jstr (chars "b")])]) ∧
    pipelineExtract c8CexInput = recipeToJson (extractRecipeFromText c8CexInput) ∧
    getField (pipelineExtract c8CexInput) (chars "ingredients") ≠
      jarr [jstr (chars "one item")] := by
  refine ⟨rfl, rfl, ?_⟩
  intro h
  have e : getField (pipelineExtract c8CexInput) (chars "ingredients") =
      jarr [jstr (chars "```")] := rfl
  have h2 := e.symm.trans h
  injection h2 with h3
  injection h3 with h4 h5
  injection h4 with h6
  exact absurd h6 (by decide)

/-- Claim C8, amended: for every raw text whose first fenced block (nothing
before it contains a backtick) holds exactly the JSON object
`{"title":"X","ingredients":"one item","instructions":["a","b"]}`, Tier-1
extraction plus normalization succeeds, wrapping the scalar `ingredients`
into `["one item"]` and keeping `instructions` unchanged. -/
theorem c8_amended (pre post : List Char) (hpre : ∀ c ∈ pre, c ≠ btick) :
    pipelineExtract (pre ++ c8FenceText ++ post) =
      jobj [(chars "title", jstr (chars "X")),
            (chars "ingredients", jarr [jstr (chars "one item")]),
            (chars "instructions", jarr [jstr (chars "a"), jstr (chars "b")])] := by
  have hff : findFence (pre ++ c8FenceText ++ post) = some c8Json := by
    rw [List.append_assoc, findFence_append_skip pre _ hpre]
    have e1 : c8FenceText ++ post =
        btick :: btick :: btick :: (chars "json\n" ++ (c8Json ++ ('\n' :: (chars "```" ++ post)))) := by
      show (chars "```json\n" ++ c8Json ++ chars "\n```") ++ post = _
      simp only [List.append_assoc, List.cons_append, List.nil_append]
      rfl
    rw [e1]
    rw [findFence]
    have hst : startsTriple (btick :: btick :: btick ::
        (chars "json\n" ++ (c8Json ++ ('\n' :: (chars "```" ++ post))))) = true := rfl
    rw [hst]
    simp only [if_true]
    have e2 : (btick :: btick :: (chars "json\n" ++ (c8Json ++ ('\n' :: (chars "```" ++ post))))).drop 2 =
        chars "json\n" ++ (c8Json ++ ('\n' :: (chars "```" ++ post))) := rfl
    have e3 : fenceFrom (chars "json\n" ++ (c8Json ++ ('\n' :: (chars "```" ++ post)))) =
        some c8Json := by
      unfold fenceFrom
      have e4 : (stripJsonTag (chars "json\n" ++ (c8Json ++ ('\n' :: (chars "```" ++ post))))).dropWhile isWS =
          c8Json ++ ('\n' :: (chars "```" ++ post)) := rfl
      rw [e4]
      rw [scanClose_append_skip c8Json _ (by decide)]
      have e5 : scanClose ('\n' :: (chars "```" ++ post)) = some ['\n'] := by
        rw [scanClose]
        have h1 : startsTriple ('\n' :: (chars "```" ++ post)) = false := by
          apply startsTriple_false_of_ne
          decide
        rw [h1]
        simp only [Bool.false_eq_true, if_false]
        have h3 : scanClose (chars "```" ++ post) = some [] := by
          show scanClose (btick :: (btick :: btick :: post)) = some []
          rw [scanClose]
          rw [show startsTriple (btick :: btick :: btick :: post) = true from rfl]
          simp
        rw [h3]
      rw [e5]
      show some (dropTrailWS (c8Json ++ ['\n'])) = some c8Json
      rw [show dropTrailWS (c8Json ++ ['\n']) = c8Json from by decide]
    rw [e2, e3]
  have hfc : fencedCandidate (pre ++ c8FenceText ++ post) = c8Json := by
    unfold fencedCandidate
    rw [hff]
  have ht1 : tier1Candidate (pre ++ c8FenceText ++ post) = c8Json := by
    unfold tier1Candidate
    rw [hfc]
    decide
  simp only [pipelineExtract]
  rw [ht1]
  rfl

theorem c8_amended_witness :
    (∀ c ∈ chars "Here is the recipe: ", c ≠ btick) ∧
    pipelineExtract (chars "Here is the recipe: " ++ c8FenceText ++ chars " Enjoy!") =
      jobj [(chars "title", jstr (chars "X")),
            (chars "ingredients", jarr [jstr (chars "one item")]),
            (chars "instructions", jarr [jstr (chars "a"), jstr (chars "b")])] :=
  ⟨by decide, c8_amended (chars "Here is the recipe: ") (chars " Enjoy!") (by decide)⟩

/-- Claim C9: the normalization step is a no-op on a value whose `title`
passes validation and whose `ingredients`/`instructions` are already
arrays. -/
theorem c9_normalize_idempotent (j : JsonVal) (a b : List JsonVal)
    (ht : truthy (getField j (chars "title")) = true)
    (ha : getField j (chars "ingredients") = jarr a)
    (hb : getField j (chars "instructions") = jarr b) :
    normalizeStep j = some j := by
  unfold normalizeStep coerceArrays coerceIng coerceIns
  rw [ha, ht]
  simp only [ha, hb, truthy, isArrB, Bool.and_self, if_true, Bool.true_and]

/-- Claim C9, witness: a concrete already-normalized recipe object is
returned unchanged. -/
theorem c9_witness :
    normalizeStep (jobj [(chars "title", jstr (chars "T")),
                         (chars "ingredients", jarr [jstr (chars "i")]),
                         (chars "instructions", jarr [jstr (chars "s")])]) =
      some (jobj [(chars "title", jstr (chars "T")),
                  (chars "ingredients", jarr [jstr (chars "i")]),
                  (chars "instructions", jarr [jstr (chars "s")])]) :=
  c9_normalize_idempotent _ [jstr (chars "i")] [jstr (chars "s")] rfl rfl rfl

/-- Claim C10: a `null` or `undefined` request body makes the destructuring
of `image` throw before the image check, and the outer catch converts the
exception into the generic 500 outcome carrying the exception's message;
the 400 bad-request outcome is not produced and the gateway is not
invoked. -/
theorem c10_absent_body_500 (apiKey : Option (List Char)) (gw : GwResult) :
    handler (chars "POST") jnull apiKey gw =
      (HResp.err 500
        (chars "Cannot destructure property 'image' of 'req.body' as it is null."), false) ∧
    handler (chars "POST") jundef apiKey gw =
      (HResp.err 500
        (chars "Cannot destructure property 'image' of 'req.body' as it is undefined."), false) :=
  ⟨rfl, rfl⟩

end RecipeGen
